import Mathlib
/-!
Verification of the protocol front-end of the forgottenserver repository.

The development shallowly embeds the networking core (crypto.cpp,
networkmessage.h, outputmessage.h, protocol.cpp, service_game.cpp,
service_http.cpp, service_status.cpp) into Lean.  Machine integers are
modelled as `Nat` with explicit reduction modulo `2 ^ 32` where the C code
relies on `uint32_t` wrap-around; byte buffers are functions `Nat → Nat`
together with read/write cursors, mirroring `NetworkMessage`; fallible
operations return `Option`.
-/
namespace FS

set_option maxRecDepth 16000

-- ===========================================================================
-- Definitions (shallow embedding of the source)
-- ===========================================================================

/-- Modulus of 32-bit unsigned arithmetic (`uint32_t`). -/
def M32 : Nat := 4294967296

/-- Wrap-around addition of `uint32_t` values. -/
def wadd (a b : Nat) : Nat := (a + b) % M32

/-- Wrap-around subtraction of `uint32_t` values (`a - b` in C unsigned
arithmetic, for operands already reduced below `2 ^ 32`). -/
def wsub (a b : Nat) : Nat := (a + (M32 - b % M32)) % M32

-- ===========================================================================
-- XTEA block cipher — crypto.cpp, `XteaEncrypt` / `XteaDecrypt`
-- ===========================================================================

/-- Embedding of `std::array<uint32_t, 4>`: the XTEA key as four 32-bit words. -/
structure XteaKey where
  k0 : Nat
  k1 : Nat
  k2 : Nat
  k3 : Nat
deriving DecidableEq

/-- Selection `key[i & 3]` for the C array indexing. -/
def XteaKey.at (key : XteaKey) (i : Nat) : Nat :=
  match i % 4 with
  | 0 => key.k0
  | 1 => key.k1
  | 2 => key.k2
  | _ => key.k3

/-- XTEA delta constant `0x9E3779B9`. -/
def xteaDelta : Nat := 2654435769

/-- Decryption start value of `sum`, `0xC6EF3720` (= 32 · delta mod 2^32). -/
def xteaDecSum : Nat := 3337565984

/-- Mixing term `((v<<4 ^ v>>5) + v) ^ (sum + key[sum & 3])` used to update
`v0` during encryption (all operations in `uint32_t`). -/
def xteaMix0 (key : XteaKey) (v sum : Nat) : Nat :=
  (wadd (((v <<< 4) % M32) ^^^ (v >>> 5)) v) ^^^ (wadd sum (key.at (sum % 4 % 4)))

/-- Mixing term `((v<<4 ^ v>>5) + v) ^ (sum + key[sum>>11 & 3])` used to
update `v1` during encryption (all operations in `uint32_t`). -/
def xteaMix1 (key : XteaKey) (v sum : Nat) : Nat :=
  (wadd (((v <<< 4) % M32) ^^^ (v >>> 5)) v) ^^^ (wadd sum (key.at ((sum >>> 11) % 4)))

/-- One iteration of the encryption loop body of `XteaEncrypt`:
`v0 += mix0; sum += delta; v1 += mix1`. -/
def xteaEncRound (key : XteaKey) (st : Nat × Nat × Nat) : Nat × Nat × Nat :=
  let v0 := wadd st.1 (xteaMix0 key st.2.1 st.2.2)
  let sum := wadd st.2.2 xteaDelta
  let v1 := wadd st.2.1 (xteaMix1 key v0 sum)
  (v0, v1, sum)

/-- One iteration of the decryption loop body of `XteaDecrypt`:
`v1 -= mix1; sum -= delta; v0 -= mix0`. -/
def xteaDecRound (key : XteaKey) (st : Nat × Nat × Nat) : Nat × Nat × Nat :=
  let v1 := wsub st.2.1 (xteaMix1 key st.1 st.2.2)
  let sum := wsub st.2.2 xteaDelta
  let v0 := wsub st.1 (xteaMix0 key v1 sum)
  (v0, v1, sum)

/-- Encryption of one 64-bit block: 32 iterations starting from `sum = 0`. -/
def xteaEncryptPair (key : XteaKey) (v0 v1 : Nat) : Nat × Nat :=
  let st := (xteaEncRound key)^[32] (v0, v1, 0)
  (st.1, st.2.1)

/-- Decryption of one 64-bit block: 32 iterations starting from
`sum = 0xC6EF3720`. -/
def xteaDecryptPair (key : XteaKey) (v0 v1 : Nat) : Nat × Nat :=
  let st := (xteaDecRound key)^[32] (v0, v1, xteaDecSum)
  (st.1, st.2.1)

/-- State domain of the cipher rounds: every component is a 32-bit value. -/
def XteaDom (st : Nat × Nat × Nat) : Prop :=
  st.1 < M32 ∧ st.2.1 < M32 ∧ st.2.2 < M32

/-- Little-endian load `*(uint32_t*)(data)` of four bytes. -/
def bytesToWord (b0 b1 b2 b3 : Nat) : Nat := b0 + 256 * (b1 + 256 * (b2 + 256 * b3))

/-- Little-endian store `*(uint32_t*)(data) = v` of a 32-bit value as four bytes. -/
def wordToBytes (v : Nat) : List Nat :=
  [v % 256, v / 256 % 256, v / 65536 % 256, v / 16777216 % 256]

/-- Block loop of `XteaEncrypt` (crypto.cpp): encrypt the buffer eight bytes
at a time, loading two little-endian 32-bit words per block. -/
def xteaEncryptBlocks (key : XteaKey) : List Nat → List Nat
  | b0 :: b1 :: b2 :: b3 :: b4 :: b5 :: b6 :: b7 :: rest =>
      let p := xteaEncryptPair key (bytesToWord b0 b1 b2 b3) (bytesToWord b4 b5 b6 b7)
      wordToBytes p.1 ++ (wordToBytes p.2 ++ xteaEncryptBlocks key rest)
  | rest => rest

/-- Block loop of `XteaDecrypt` (crypto.cpp). -/
def xteaDecryptBlocks (key : XteaKey) : List Nat → List Nat
  | b0 :: b1 :: b2 :: b3 :: b4 :: b5 :: b6 :: b7 :: rest =>
      let p := xteaDecryptPair key (bytesToWord b0 b1 b2 b3) (bytesToWord b4 b5 b6 b7)
      wordToBytes p.1 ++ (wordToBytes p.2 ++ xteaDecryptBlocks key rest)
  | rest => rest

/-- Embedding of `XteaEncrypt` (crypto.cpp): fails when the length is not a
multiple of eight, otherwise encrypts the buffer in place. -/
def XteaEncrypt (key : XteaKey) (data : List Nat) : Option (List Nat) :=
  if data.length % 8 ≠ 0 then none else some (xteaEncryptBlocks key data)

/-- Embedding of `XteaDecrypt` (crypto.cpp). -/
def XteaDecrypt (key : XteaKey) (data : List Nat) : Option (List Nat) :=
  if data.length % 8 ≠ 0 then none else some (xteaDecryptBlocks key data)


-- ===========================================================================
-- NetworkMessage — networkmessage.h
-- ===========================================================================

/-- Modelled from the spec: `NETWORKMESSAGE_MAXSIZE` lives in const.h, which is
not part of the sources; the spec fixes the fixed-capacity buffer at 24 KiB
("Maximum frame payload 24,576 bytes"). -/
def NETWORKMESSAGE_MAXSIZE : Nat := 24576

/-- Embedding of `NetworkMessage`: a fixed-capacity byte buffer with a read
cursor and a write cursor.  The buffer is a total function from indices to
byte values; indices at or beyond `NETWORKMESSAGE_MAXSIZE` are never read by
the guarded accessors. -/
structure NetworkMessage where
  rdpos : Nat
  wrpos : Nat
  buffer : Nat → Nat

/-- Check `(rdpos + n) <= wrpos` of `NetworkMessage::canRead`. -/
def NetworkMessage.canRead (m : NetworkMessage) (n : Nat) : Bool :=
  m.rdpos + n ≤ m.wrpos

/-- Check `(wrpos + n) <= buffer.size()` of `NetworkMessage::canAdd`. -/
def NetworkMessage.canAdd (m : NetworkMessage) (n : Nat) : Bool :=
  m.wrpos + n ≤ NETWORKMESSAGE_MAXSIZE

/-- Check `rdpos > wrpos || wrpos > buffer.size()` of
`NetworkMessage::isOverrun`. -/
def NetworkMessage.isOverrun (m : NetworkMessage) : Bool :=
  m.rdpos > m.wrpos || m.wrpos > NETWORKMESSAGE_MAXSIZE

/-- Embedding of `NetworkMessage::getRemainingLength`. -/
def NetworkMessage.getRemainingLength (m : NetworkMessage) : Nat :=
  if !m.isOverrun then m.wrpos - m.rdpos else 0

/-- Embedding of `NetworkMessage::getWrittenLength`. -/
def NetworkMessage.getWrittenLength (m : NetworkMessage) : Nat :=
  if !m.isOverrun then m.wrpos else 0

/-- Little-endian read of `width` bytes starting at index `pos`. -/
def readLE (buf : Nat → Nat) (pos : Nat) : Nat → Nat
  | 0 => 0
  | w + 1 => buf pos + 256 * readLE buf (pos + 1) w

/-- Little-endian byte decomposition of a value into `width` bytes, as
`memcpy` of an unsigned integer does on a little-endian machine. -/
def natLE (v : Nat) : Nat → List Nat
  | 0 => []
  | w + 1 => v % 256 :: natLE (v / 256) w

/-- Store a list of bytes at consecutive indices starting at `pos`. -/
def writeBytesAt (buf : Nat → Nat) (pos : Nat) : List Nat → (Nat → Nat)
  | [] => buf
  | b :: rest => writeBytesAt (fun i => if i = pos then b else buf i) (pos + 1) rest

/-- Embedding of `NetworkMessage::getByte`: on a failed bounds check the
default `0` is returned and no buffer cell is accessed, but the read cursor
still advances. -/
def NetworkMessage.getByte (m : NetworkMessage) : Nat × NetworkMessage :=
  let result := if m.canRead 1 then m.buffer m.rdpos else 0
  (result, { m with rdpos := m.rdpos + 1 })

/-- Embedding of `NetworkMessage::get<T>` for an unsigned integral `T` of
`width` bytes (little-endian `memcpy`): a failed bounds check yields the
zero-initialised `T result = {}`, and the read cursor advances regardless. -/
def NetworkMessage.getNum (m : NetworkMessage) (width : Nat) : Nat × NetworkMessage :=
  let result := if m.canRead width then readLE m.buffer m.rdpos width else 0
  (result, { m with rdpos := m.rdpos + width })

/-- Embedding of `NetworkMessage::addByte`: past capacity the write cursor
advances but nothing is stored. -/
def NetworkMessage.addByte (m : NetworkMessage) (v : Nat) : NetworkMessage :=
  let buffer := if m.canAdd 1 then writeBytesAt m.buffer m.wrpos [v % 256] else m.buffer
  { m with wrpos := m.wrpos + 1, buffer := buffer }

/-- Embedding of `NetworkMessage::add<T>` for an unsigned integral `T` of
`width` bytes. -/
def NetworkMessage.addNum (m : NetworkMessage) (width v : Nat) : NetworkMessage :=
  let buffer := if m.canAdd width then writeBytesAt m.buffer m.wrpos (natLE v width) else m.buffer
  { m with wrpos := m.wrpos + width, buffer := buffer }

/-- Embedding of `NetworkMessage::addBytes` (networkmessage.cpp). -/
def NetworkMessage.addBytes (m : NetworkMessage) (bytes : List Nat) : NetworkMessage :=
  let buffer := if m.canAdd bytes.length then writeBytesAt m.buffer m.wrpos bytes else m.buffer
  { m with wrpos := m.wrpos + bytes.length, buffer := buffer }

/-- Embedding of `NetworkMessage::discardPadding`: drop `padding` bytes from
the tail, failing when more is asked than remains. -/
def NetworkMessage.discardPadding (m : NetworkMessage) (padding : Nat) :
    Bool × NetworkMessage :=
  if padding > m.getRemainingLength then (false, m)
  else (true, { m with wrpos := m.wrpos - padding })

/-- Byte list of the region `[rdpos, wrpos)` exposed by
`getRemainingBuffer`/`getRemainingLength`. -/
def NetworkMessage.remainingBytes (m : NetworkMessage) : List Nat :=
  (List.range m.getRemainingLength).map (fun i => m.buffer (m.rdpos + i))

/-- Overwrite of the region `[rdpos, rdpos + bytes.length)`: the in-place
mutation performed through `getRemainingBuffer` by the XTEA routines. -/
def NetworkMessage.writeRemaining (m : NetworkMessage) (bytes : List Nat) : NetworkMessage :=
  { m with buffer := writeBytesAt m.buffer m.rdpos bytes }

-- ===========================================================================
-- OutputMessage — outputmessage.h
-- ===========================================================================

/-- Embedding of `OutputMessage`: a `NetworkMessage` plus the `start` cursor
reserved at offset 8 for prepended headers.  `headerFault` records a failure
of the `assert(start >= (int)sizeof(T))` inside `addHeader`, which the C code
would hit before underflowing `start`. -/
structure OutputMessage extends NetworkMessage where
  start : Nat
  headerFault : Bool

/-- Embedding of `OutputMessage::reset` (also the state made by the
constructor and by `OutputMessage::make`). -/
def OutputMessage.reset (m : OutputMessage) : OutputMessage :=
  { m with start := 8, rdpos := 8, wrpos := 8 }

/-- Embedding of `OutputMessage::getOutputLength`. -/
def OutputMessage.getOutputLength (m : OutputMessage) : Nat :=
  if !m.toNetworkMessage.isOverrun then m.wrpos - m.start else 0

/-- Embedding of `OutputMessage::addHeader<T>` for an unsigned integral `T`
of `width` bytes: `start` moves back by `width` and the value is stored
there; a violation of `assert(start >= (int)sizeof(T))` is recorded in
`headerFault`. -/
def OutputMessage.addHeader (m : OutputMessage) (width v : Nat) : OutputMessage :=
  if m.start < width then { m with headerFault := true }
  else { m with start := m.start - width,
                buffer := writeBytesAt m.buffer (m.start - width) (natLE v width) }

/-- Byte list of the region `[start, start + getOutputLength)` exposed by
`getOutputBuffer`/`getOutputLength`. -/
def OutputMessage.outputBytes (m : OutputMessage) : List Nat :=
  (List.range m.getOutputLength).map (fun i => m.buffer (m.start + i))

/-- Overwrite of the output region starting at `start`: in-place mutation
through `getOutputBuffer`. -/
def OutputMessage.writeOutput (m : OutputMessage) (bytes : List Nat) : OutputMessage :=
  { m with buffer := writeBytesAt m.buffer m.start bytes }

/-- Lift of `NetworkMessage.addByte` to `OutputMessage`. -/
def OutputMessage.addByte (m : OutputMessage) (v : Nat) : OutputMessage :=
  { m with toNetworkMessage := m.toNetworkMessage.addByte v }


-- ===========================================================================
-- Game frame reading — service_game.cpp, `ReadGamePacket`
-- ===========================================================================

/-- Embedding of `ReadGamePacket` (service_game.cpp).  `stream` is the byte
sequence the peer delivers on the socket: two prelude bytes carrying the XTEA
block count, then the packet body read into the buffer from position 0.  A
short stream makes `asio::async_read` fail, which the caller turns into an
abort, so it is modelled as `none` like every other rejection.  On success
the remaining payload and the updated `clientSequence` counter are returned;
`none` makes `GameReader`/`GameHandshake` abort the connection. -/
def readGamePacket (key : XteaKey) (clientSequence : Nat) (stream : List Nat)
    (encryptionEnabled : Bool) : Option (List Nat × Nat) :=
  match stream with
  | b0 :: b1 :: rest =>
    let numXteaBlocks := b0 % 256 + 256 * (b1 % 256)
    let packetLen := 4 + numXteaBlocks * 8
    if numXteaBlocks = 0 ∨ packetLen > NETWORKMESSAGE_MAXSIZE then none
    else if rest.length < packetLen then none
    else
      let input : NetworkMessage :=
        { rdpos := 0, wrpos := packetLen,
          buffer := fun i => (rest.take packetLen).getD i 0 % 256 }
      let seqRead := input.getNum 4
      if seqRead.1 ≠ clientSequence then none
      else
        let step : Option NetworkMessage :=
          if encryptionEnabled then
            (XteaDecrypt key seqRead.2.remainingBytes).map seqRead.2.writeRemaining
          else some seqRead.2
        step.bind (fun input2 =>
          let padRead := input2.getByte
          let dp := padRead.2.discardPadding padRead.1
          if dp.1 then some (dp.2.remainingBytes, (clientSequence + 1) % M32)
          else none)
  | _ => none

/-- Block count carried by the two-byte prelude of a frame. -/
def frameBlocks (stream : List Nat) : Option Nat :=
  match stream with
  | b0 :: b1 :: _ => some (b0 % 256 + 256 * (b1 % 256))
  | _ => none

/-- Sequence field of a frame: the little-endian 32-bit value at the start of
the body. -/
def frameSequence (stream : List Nat) : Option Nat :=
  match stream with
  | _ :: _ :: rest => some (readLE (fun i => rest.getD i 0 % 256) 0 4)
  | _ => none

/-- Decrypted region of a frame: the body after the sequence field, XTEA
decrypted when encryption is on.  Mirrors the stages of `ReadGamePacket` up
to the point where the padding byte is read. -/
def frameDecrypted (key : XteaKey) (stream : List Nat) (encryptionEnabled : Bool) :
    Option (List Nat) :=
  match stream with
  | b0 :: b1 :: rest =>
    let numXteaBlocks := b0 % 256 + 256 * (b1 % 256)
    let packetLen := 4 + numXteaBlocks * 8
    if numXteaBlocks = 0 ∨ packetLen > NETWORKMESSAGE_MAXSIZE then none
    else if rest.length < packetLen then none
    else
      let body := (List.range (packetLen - 4)).map (fun i => rest.getD (4 + i) 0 % 256)
      if encryptionEnabled then XteaDecrypt key body else some body
  | _ => none

/-- Padding count of a frame: the first byte of the decrypted region. -/
def framePadding (key : XteaKey) (stream : List Nat) (encryptionEnabled : Bool) :
    Option Nat :=
  (frameDecrypted key stream encryptionEnabled).map (fun dec => dec.getD 0 0)

-- ===========================================================================
-- Game frame writing — service_game.cpp, `WriteGamePacket`
-- ===========================================================================

/-- Padding loop of `WriteGamePacket`: add random bytes until
`(getOutputLength + 1) % 8 == 0`.  The loop re-reads `getOutputLength` each
iteration, so it is modelled with fuel; `none` means the loop would not have
terminated within the given fuel. -/
def padLoop (rand : Nat → Nat) : Nat → OutputMessage → Nat → Option (OutputMessage × Nat)
  | 0, m, padding =>
      if (m.getOutputLength + 1) % 8 ≠ 0 then none else some (m, padding)
  | fuel + 1, m, padding =>
      if (m.getOutputLength + 1) % 8 ≠ 0 then
        padLoop rand fuel (m.addByte (rand padding)) (padding + 1)
      else some (m, padding)

/-- Embedding of `WriteGamePacket` (service_game.cpp): pad, prepend the
padding-count header, XTEA encrypt, prepend the sequence and block-count
headers.  Returns the wire frame and the incremented `serverSequence`;
`none` corresponds to `co_return false`, which makes `GameWriter` abort. -/
def writeGamePacket (serverSequence : Nat) (rand : Nat → Nat) (key : XteaKey)
    (encryptionEnabled : Bool) (output : OutputMessage) :
    Option (OutputMessage × Nat) :=
  (padLoop rand 8 output 0).bind (fun padded =>
    let output2 := padded.1.addHeader 1 padded.2
    let numXteaBlocks := output2.getOutputLength / 8
    if output2.toNetworkMessage.isOverrun ∨ numXteaBlocks = 0 ∨ numXteaBlocks > 65535 then
      none
    else
      let step : Option OutputMessage :=
        if encryptionEnabled then
          (XteaEncrypt key output2.outputBytes).map output2.writeOutput
        else some output2
      step.bind (fun output3 =>
        let output4 := output3.addHeader 4 serverSequence
        some (output4.addHeader 2 numXteaBlocks, (serverSequence + 1) % M32)))

-- ===========================================================================
-- Outbound wrapping — protocol.cpp, `Protocol::wrapPacket`
-- ===========================================================================

/-- Checksum mode of a connection (protocol.h declares the enumeration; the
three modes appear in `Protocol::wrapPacket`). -/
inductive ChecksumMode where
  | adler
  | sequence
  | disabled
deriving DecidableEq

/-- Modelled from the spec: `adlerChecksum` lives in tools.cpp, which is not
part of the sources; the spec glossary describes it as the standard Adler-32
rolling checksum over the plaintext payload. -/
def adler32 (data : List Nat) : Nat :=
  let s := data.foldl
    (fun (p : Nat × Nat) b => ((p.1 + b) % 65521, (p.2 + p.1 + b) % 65521)) (1, 0)
  s.2 * 65536 + s.1

/-- Padding-and-encrypt helper `XTEA_encrypt` (protocol.cpp, anonymous
namespace): pad the output region to a multiple of eight with random bytes,
fail on overrun, then encrypt the region in place.  `xtea::encrypt` performs
the same block transformation as `XteaEncrypt` in crypto.cpp. -/
def addRandPadding (rand : Nat → Nat) (m : OutputMessage) : Nat → OutputMessage
  | 0 => m
  | n + 1 => addRandPadding rand (m.addByte (rand n)) n

/-- Body of `XTEA_encrypt` (protocol.cpp): the pad count is derived from the
local `xteaLen` variable, so the loop always terminates. -/
def protoXTEAEncrypt (key : XteaKey) (rand : Nat → Nat) (msg : OutputMessage) :
    Option OutputMessage :=
  let xteaLen := msg.getOutputLength
  let padCount := (8 - xteaLen % 8) % 8
  let msg2 := addRandPadding rand msg padCount
  if msg2.toNetworkMessage.isOverrun then none
  else some (msg2.writeOutput (xteaEncryptBlocks key msg2.outputBytes))

/-- Embedding of `Protocol::deflateMessage` (protocol.cpp).  The zlib stream
is external code, abstracted as an oracle `zlib` returning the raw-deflate
compression of the payload, or `none` when `deflate` does not reach
`Z_STREAM_END` (error, or output larger than the scratch buffer).
Compression is abandoned when the result is not strictly smaller. -/
def deflateMessage (zlib : List Nat → Option (List Nat)) (msg : OutputMessage) :
    Bool × OutputMessage :=
  let uncompressedSize := msg.getOutputLength
  if uncompressedSize = 0 then (false, msg)
  else
    match zlib msg.outputBytes with
    | none => (false, msg)
    | some compressed =>
        if compressed.length ≥ uncompressedSize then (false, msg)
        else (true, { msg with
          buffer := writeBytesAt msg.buffer msg.start compressed,
          wrpos := msg.wrpos - (uncompressedSize - compressed.length) })

/-- Sealing tail of `Protocol::wrapPacket` (protocol.cpp): prepend the inner
payload-length header, XTEA encrypt, prepend the checksum-or-sequence header,
and prepend the outer length header. -/
def wrapSeal (key : XteaKey) (rand : Nat → Nat) (checksum : Nat)
    (msg : OutputMessage) : Option OutputMessage :=
  let msg2 := msg.addHeader 2 msg.getOutputLength
  (protoXTEAEncrypt key rand msg2).bind (fun msg3 =>
    let msg4 := msg3.addHeader 4 checksum
    some (msg4.addHeader 2 msg4.getOutputLength))

/-- Embedding of `Protocol::wrapPacket` (protocol.cpp).  Modelled from the
spec where protocol.h is missing: `getNextSequenceId()` yields the
per-connection server sequence, incremented once per outbound frame; the
value used for this frame is the parameter `sequenceId`. -/
def wrapPacket (checksumMode : ChecksumMode) (encryptionEnabled rawMessages : Bool)
    (sequenceId : Nat) (zlib : List Nat → Option (List Nat)) (rand : Nat → Nat)
    (key : XteaKey) (msg : OutputMessage) : Option OutputMessage :=
  if msg.toNetworkMessage.isOverrun then none
  else if rawMessages then some msg
  else if encryptionEnabled then
    let cm : Nat × OutputMessage :=
      match checksumMode with
      | ChecksumMode.adler => (adler32 msg.outputBytes, msg)
      | ChecksumMode.sequence =>
          if msg.getOutputLength ≥ 128 then
            let dm := deflateMessage zlib msg
            (if dm.1 then sequenceId ||| 2147483648 else sequenceId, dm.2)
          else (sequenceId, msg)
      | ChecksumMode.disabled => (0, msg)
    wrapSeal key rand cm.1 cm.2
  else some (msg.addHeader 2 msg.getOutputLength)

/-- Deflate decision of `wrapPacket` in sequence mode: the exact condition
`msg->getOutputLength() >= 128 && deflateMessage(*msg)` of the source. -/
def wrapDeflateApplied (zlib : List Nat → Option (List Nat)) (msg : OutputMessage) :
    Bool :=
  decide (msg.getOutputLength ≥ 128) && (deflateMessage zlib msg).1

/-- Sequence (checksum) field of a wrapped frame: the little-endian 32-bit
value at offset 2 of the frame, per the layout in outputmessage.h. -/
def frameSequenceField (msg : OutputMessage) : Nat :=
  readLE msg.buffer (msg.start + 2) 4

-- ===========================================================================
-- Game packet dispatch guard — service_game.cpp, `ParsePacket`
-- ===========================================================================

/-- Player state visible to the dispatch guard. -/
structure GamePlayer where
  isDead : Bool
  isRemoved : Bool
deriving DecidableEq

/-- Outcome of `ParsePacket` before the command switch: detach, logout, a
silent return, or dispatch of the command to the switch table. -/
inductive DispatchOutcome where
  | ignored
  | detach
  | logout
  | dispatched (command : Nat)
deriving DecidableEq

/-- Embedding of the entry and guard of `ParsePacket` (service_game.cpp):
an empty packet or a shutting-down game returns silently; with no attached
player, or a dead or removed player, the guard decides between detach,
logout and a silent return; otherwise the command byte reaches the switch
table. -/
def parsePacket (gameShutdown : Bool) (player : Option GamePlayer)
    (data : List Nat) : DispatchOutcome :=
  match data with
  | [] => DispatchOutcome.ignored
  | b :: _ =>
    if gameShutdown then DispatchOutcome.ignored
    else
      let command := b % 256
      match player with
      | none => DispatchOutcome.detach
      | some p =>
        if p.isDead || p.isRemoved then
          if command = 15 then DispatchOutcome.detach
          else if command = 20 then DispatchOutcome.logout
          else DispatchOutcome.ignored
        else DispatchOutcome.dispatched command

-- ===========================================================================
-- Wait list — service_game.cpp, `GetWaitSlot`
-- ===========================================================================

/-- Entry of the static wait-list deque of `GetWaitSlot`. -/
structure WaitSlotEntry where
  timeout : Int
  playerGuid : Nat
  premium : Bool
deriving DecidableEq

/-- Modelled from the spec for the player attributes read by `GetWaitSlot`
(player.h is not in the sources): `canAlwaysLogin` is the
`PlayerFlag_CanAlwaysLogin` flag, `gamemaster` is
`getAccountType() >= ACCOUNT_TYPE_GAMEMASTER`, `premium` is `isPremium()`,
and `guid` is `getGUID()`. -/
structure WaitPlayer where
  canAlwaysLogin : Bool
  gamemaster : Bool
  premium : Bool
  guid : Nat
deriving DecidableEq

/-- Scanning loop of `GetWaitSlot` over the pruned wait list.  The state is
the iterator position `idx` and the two counters; one recursion step is one
iteration of the `while(it != waitList.end())` loop.  The source never
advances `it` inside the loop, and the embedding mirrors that: `idx` is the
same in every recursive call.  `none` means the loop did not exit within
`fuel` iterations. -/
def scanWaitList (entries : List WaitSlotEntry) (now : Int) (guid : Nat) :
    Nat → Nat → Nat → Nat → Option (Nat × Nat × Nat)
  | 0, _, _, _ => none
  | fuel + 1, idx, freeAccount, premiumAccount =>
    match entries[idx]? with
    | none => some (idx, freeAccount, premiumAccount)
    | some e =>
      if e.timeout ≤ now then
        scanWaitList entries now guid fuel idx freeAccount premiumAccount
      else if e.playerGuid = guid then
        some (idx, freeAccount, premiumAccount)
      else if e.premium then
        scanWaitList entries now guid fuel idx freeAccount (premiumAccount + 1)
      else
        scanWaitList entries now guid fuel idx (freeAccount + 1) premiumAccount

/-- Embedding of `GetWaitSlot` (service_game.cpp).  The static deque is the
parameter `waitList` and the updated deque is returned.  The result carries
the wait slot and the retry seconds written through `outRetrySeconds`.
`none` means the function did not return within `fuel` iterations of its
scanning loop. -/
def getWaitSlot (fuel : Nat) (player : WaitPlayer) (numPlayers maxPlayers : Int)
    (now : Int) (waitList : List WaitSlotEntry) :
    Option (Nat × Option Nat × List WaitSlotEntry) :=
  if player.canAlwaysLogin || player.gamemaster then some (0, none, waitList)
  else
    let freeSlots := maxPlayers - numPlayers
    if maxPlayers = 0 || (waitList.isEmpty && freeSlots > 0) then some (0, none, waitList)
    else
      let pruned := waitList.dropWhile (fun e => e.timeout ≤ now)
      match scanWaitList pruned now player.guid fuel 0 0 0 with
      | none => none
      | some (idx, freeAccount, premiumAccount) =>
        let waitSlot := premiumAccount + 1 +
          (if player.premium then 0 else freeAccount)
        let retrySeconds := min (((waitSlot / 5) + 1) * 5) 60
        if (waitSlot : Int) ≤ freeSlots then
          some (0, some retrySeconds, pruned.eraseIdx idx)
        else
          let timeout := now + ((retrySeconds : Int) + 15)
          let newList :=
            match pruned[idx]? with
            | some e => pruned.set idx { e with timeout := timeout }
            | none => pruned ++ [⟨timeout, player.guid, player.premium⟩]
          some (waitSlot, some retrySeconds, newList)

-- ===========================================================================
-- Status rate limiting — service_status.cpp, `AllowStatusRequest`
-- ===========================================================================

/-- Embedding of `StatusRecord`: peer address and request time. -/
structure StatusRecord where
  address : Nat
  timepoint : Int
deriving DecidableEq

/-- Compaction loop of `AllowStatusRequest`: walk the records in order,
keep those with `timepoint >= cutoff`, and note whether a retained record
carries the peer address. -/
def statusScan (cutoff : Int) (address : Nat) :
    List StatusRecord → List StatusRecord → Bool → List StatusRecord × Bool
  | [], kept, recent => (kept, recent)
  | r :: rest, kept, recent =>
      if r.timepoint ≥ cutoff then
        statusScan cutoff address rest (kept ++ [r]) (recent || decide (r.address = address))
      else
        statusScan cutoff address rest kept recent

/-- Embedding of `AllowStatusRequest` (service_status.cpp): prune expired
records, deny when the peer appears among the retained records, and append
a fresh record exactly when the request is allowed. -/
def allowStatusRequest (records : List StatusRecord) (address : Nat)
    (now minRequestInterval : Int) : Bool × List StatusRecord :=
  let cutoff := now - minRequestInterval
  let scan := statusScan cutoff address records [] false
  if !scan.2 then (true, scan.1 ++ [⟨address, now⟩])
  else (false, scan.1)

-- ===========================================================================
-- HTTP login service — service_http.cpp
-- ===========================================================================

/-- Minimal JSON value model for the boost::json bodies built by the login
service. -/
inductive Jval where
  | null
  | str (s : String)
  | num (n : Int)
  | boolean (b : Bool)
  | arr (xs : List Jval)
  | obj (fields : List (String × Jval))

/-- Embedding of `HttpResponse` (service_http.cpp): a status and a JSON
body. -/
structure HttpResponse where
  status : Nat
  body : Jval

/-- Embedding of `HttpBadRequest` (service_http.cpp):
`beast::http::status::bad_request` is HTTP 400. -/
def HttpBadRequest (code : Int) (message : String) : HttpResponse :=
  { status := 400,
    body := Jval.obj [("errorCode", Jval.num code), ("errorMessage", Jval.str message)] }

/-- Account row selected by `HttpHandleLogin`:
`SELECT id, UNHEX(password) AS password, secret, premium_ends_at`. -/
structure AccountRow where
  rowId : Int
  passwordSha1 : String
  secret : String
  premiumEndsAt : Int
deriving DecidableEq

/-- Modelled from the spec: `AUTHENTICATOR_PERIOD` comes from const.h, which
is not in the sources; the spec fixes the TOTP period at 30 seconds. -/
def AUTHENTICATOR_PERIOD : Int := 30

/-- Success body built by `HttpHandleLogin`: the session block and the
play-data block.  The world and character arrays are opaque database-derived
values passed in by the caller. -/
def httpLoginSuccessBody (row : AccountRow) (currentTimestamp : Int)
    (sessionKeyB64 : String) (lastLogin : Int) (worlds characters : Jval) : Jval :=
  Jval.obj
    [("session", Jval.obj
        [("sessionkey", Jval.str sessionKeyB64),
         ("lastlogintime", Jval.num lastLogin),
         ("ispremium", Jval.boolean (row.premiumEndsAt ≥ currentTimestamp)),
         ("premiumuntil", Jval.num row.premiumEndsAt),
         ("status", Jval.str "active"),
         ("returnernotification", Jval.boolean false),
         ("showrewardnews", Jval.boolean true),
         ("isreturner", Jval.boolean true),
         ("recoverysetupcomplete", Jval.boolean true),
         ("fpstracking", Jval.boolean false),
         ("optiontracking", Jval.boolean false)]),
     ("playdata", Jval.obj
        [("worlds", worlds),
         ("characters", characters)])]

/-- Continuation of `HttpHandleLogin` after credential and token checks: the
session insert (`insertOk` abstracts the `INSERT INTO sessions` query) and
the 200 response. -/
def httpLoginProceed (row : AccountRow) (currentTimestamp : Int) (insertOk : Bool)
    (sessionKeyB64 : String) (lastLogin : Int) (worlds characters : Jval) :
    HttpResponse :=
  if !insertOk then HttpBadRequest 2 "Internal error."
  else { status := 200,
         body := httpLoginSuccessBody row currentTimestamp sessionKeyB64 lastLogin
                   worlds characters }

/-- Embedding of `HttpHandleLogin` (service_http.cpp).  `account` is the row
selected for the request email (`none` covers a missing row and query
failure, both caught by the surrounding try/catch); `passwordSha1` is
`transformToSHA1(password)` of the supplied password; `generateToken` is the
TOTP oracle of tools.cpp; `token` is the request token field when present
and a string. -/
def HttpHandleLogin (account : Option AccountRow) (passwordSha1 : String)
    (generateToken : String → Int → String) (currentTimestamp : Int)
    (token : Option String) (insertOk : Bool) (sessionKeyB64 : String)
    (lastLogin : Int) (worlds characters : Jval) : HttpResponse :=
  match account with
  | none => HttpBadRequest 3 "Email address or password is not correct."
  | some row =>
    if row.passwordSha1 ≠ passwordSha1 then
      HttpBadRequest 3 "Email address or password is not correct."
    else if row.secret ≠ "" then
      match token with
      | none => HttpBadRequest 6 "Two-factor token required for authentication."
      | some tok =>
        let ticks := currentTimestamp / AUTHENTICATOR_PERIOD
        if tok ≠ generateToken row.secret ticks ∧
           tok ≠ generateToken row.secret (ticks - 1) ∧
           tok ≠ generateToken row.secret (ticks + 1) then
          HttpBadRequest 6 "Two-factor token required for authentication."
        else
          httpLoginProceed row currentTimestamp insertOk sessionKeyB64 lastLogin
            worlds characters
    else
      httpLoginProceed row currentTimestamp insertOk sessionKeyB64 lastLogin
        worlds characters

/-- Wire response produced by `HttpHandleRequest` (service_http.cpp): the
beast response object is constructed with `beast::http::status::ok` and only
the serialized body of the handler result is copied into it, so the
handler status is dropped. -/
structure WireResponse where
  status : Nat
  body : Jval

/-- Embedding of the response construction at the end of
`HttpHandleRequest`. -/
def httpWireResponse (res : HttpResponse) : WireResponse :=
  { status := 200, body := res.body }

/-- Embedding of the dispatch of `HttpHandleRequest` on the request `type`
field (`none` covers a missing or non-string field). -/
def HttpHandleRequest (reqType : Option String)
    (handleLogin handleCacheInfo : Unit → HttpResponse) : WireResponse :=
  httpWireResponse <|
    match reqType with
    | some t =>
        if t = "login" then handleLogin ()
        else if t = "cacheinfo" then handleCacheInfo ()
        else HttpBadRequest 2 "Invalid request type."
    | none => HttpBadRequest 2 "Invalid request."

/-- Concrete one-block frame used to exercise the inbound padding bound: the
decrypted region (under the all-zero key) is the block `[7,0,0,0,0,0,0,0]`,
whose padding byte 7 discards the whole remainder of the region. -/
def c6Stream : List Nat :=
  [1, 0] ++ ([0, 0, 0, 0] ++ xteaEncryptBlocks ⟨0, 0, 0, 0⟩ [7, 0, 0, 0, 0, 0, 0, 0])

-- ===========================================================================
-- Theorems
-- ===========================================================================

theorem wadd_lt (a b : Nat) : wadd a b < M32 := by
  have : 0 < M32 := by decide
  exact Nat.mod_lt _ this

theorem wsub_lt (a b : Nat) : wsub a b < M32 := by
  have : 0 < M32 := by decide
  exact Nat.mod_lt _ this

theorem wsub_wadd_cancel (a b : Nat) (ha : a < M32) (hb : b < M32) :
    wsub (wadd a b) b = a := by
  unfold wsub wadd M32 at *
  omega

theorem wadd_wsub_cancel (a b : Nat) (ha : a < M32) (hb : b < M32) :
    wadd (wsub a b) b = a := by
  unfold wsub wadd M32 at *
  omega

/-- Xor of two 32-bit values stays below `2 ^ 32`. -/
theorem xor_lt_M32 {a b : Nat} (ha : a < M32) (hb : b < M32) : a ^^^ b < M32 := by
  have : M32 = 2 ^ 32 := by decide
  rw [this] at ha hb ⊢
  exact Nat.xor_lt_two_pow ha hb

theorem xteaMix0_lt (key : XteaKey) (v sum : Nat) : xteaMix0 key v sum < M32 :=
  xor_lt_M32 (wadd_lt _ _) (wadd_lt _ _)

theorem xteaMix1_lt (key : XteaKey) (v sum : Nat) : xteaMix1 key v sum < M32 :=
  xor_lt_M32 (wadd_lt _ _) (wadd_lt _ _)

theorem xteaEncRound_dom (key : XteaKey) (st : Nat × Nat × Nat) :
    XteaDom (xteaEncRound key st) :=
  ⟨wadd_lt _ _, wadd_lt _ _, wadd_lt _ _⟩

theorem xteaDecRound_dom (key : XteaKey) (st : Nat × Nat × Nat) :
    XteaDom (xteaDecRound key st) :=
  ⟨wsub_lt _ _, wsub_lt _ _, wsub_lt _ _⟩

theorem xteaDecRound_encRound (key : XteaKey) (st : Nat × Nat × Nat)
    (h : XteaDom st) : xteaDecRound key (xteaEncRound key st) = st := by
  obtain ⟨h0, h1, hs⟩ := h
  obtain ⟨v0, v1, sum⟩ := st
  simp only [xteaEncRound, xteaDecRound]
  rw [wsub_wadd_cancel _ _ h1 (xteaMix1_lt _ _ _),
      wsub_wadd_cancel _ _ hs (by decide),
      wsub_wadd_cancel _ _ h0 (xteaMix0_lt _ _ _)]

theorem xteaEncRound_decRound (key : XteaKey) (st : Nat × Nat × Nat)
    (h : XteaDom st) : xteaEncRound key (xteaDecRound key st) = st := by
  obtain ⟨h0, h1, hs⟩ := h
  obtain ⟨v0, v1, sum⟩ := st
  simp only [xteaEncRound, xteaDecRound]
  rw [wadd_wsub_cancel _ _ h0 (xteaMix0_lt _ _ _),
      wadd_wsub_cancel _ _ hs (by decide),
      wadd_wsub_cancel _ _ h1 (xteaMix1_lt _ _ _)]

theorem xteaEncRound_iterate_dom (key : XteaKey) (n : Nat) (st : Nat × Nat × Nat)
    (h : XteaDom st) : XteaDom ((xteaEncRound key)^[n] st) := by
  induction n generalizing st with
  | zero => exact h
  | succ n ih =>
      rw [Function.iterate_succ_apply]
      exact ih _ (xteaEncRound_dom key st)

theorem xteaDecRound_iterate_dom (key : XteaKey) (n : Nat) (st : Nat × Nat × Nat)
    (h : XteaDom st) : XteaDom ((xteaDecRound key)^[n] st) := by
  induction n generalizing st with
  | zero => exact h
  | succ n ih =>
      rw [Function.iterate_succ_apply]
      exact ih _ (xteaDecRound_dom key st)

theorem xteaDec_iterate_enc_iterate (key : XteaKey) (n : Nat) (st : Nat × Nat × Nat)
    (h : XteaDom st) :
    (xteaDecRound key)^[n] ((xteaEncRound key)^[n] st) = st := by
  induction n generalizing st with
  | zero => rfl
  | succ n ih =>
      rw [Function.iterate_succ_apply, Function.iterate_succ_apply']
      rw [xteaDecRound_encRound key _ (xteaEncRound_iterate_dom key n st h)]
      exact ih st h

theorem xteaEnc_iterate_dec_iterate (key : XteaKey) (n : Nat) (st : Nat × Nat × Nat)
    (h : XteaDom st) :
    (xteaEncRound key)^[n] ((xteaDecRound key)^[n] st) = st := by
  induction n generalizing st with
  | zero => rfl
  | succ n ih =>
      rw [Function.iterate_succ_apply, Function.iterate_succ_apply']
      rw [xteaEncRound_decRound key _ (xteaDecRound_iterate_dom key n st h)]
      exact ih st h

/-- Running the encryption rounds drives `sum` along the arithmetic
progression `s + n·delta (mod 2^32)`, independently of `v0`/`v1`. -/
theorem xteaEncRound_iterate_sum (key : XteaKey) (n : Nat) (st : Nat × Nat × Nat)
    (hs : st.2.2 < M32) :
    ((xteaEncRound key)^[n] st).2.2 = (st.2.2 + n * xteaDelta) % M32 := by
  induction n generalizing st with
  | zero =>
      simp only [Function.iterate_zero, id, Nat.mul_zero, Nat.zero_mul, Nat.add_zero]
      exact (Nat.mod_eq_of_lt hs).symm
  | succ n ih =>
      rw [Function.iterate_succ_apply, ih _ (wadd_lt _ _)]
      show ((st.2.2 + xteaDelta) % M32 + n * xteaDelta) % M32 = _
      rw [Nat.mod_add_mod]
      congr 1
      ring

theorem xteaDecryptPair_encryptPair (key : XteaKey) (v0 v1 : Nat)
    (h0 : v0 < M32) (h1 : v1 < M32) :
    xteaDecryptPair key (xteaEncryptPair key v0 v1).1 (xteaEncryptPair key v0 v1).2
      = (v0, v1) := by
  have hz : (0 : Nat) < M32 := by decide
  have hdom : XteaDom (v0, v1, 0) := ⟨h0, h1, hz⟩
  have hsum : ((xteaEncRound key)^[32] (v0, v1, 0)).2.2 = xteaDecSum := by
    rw [xteaEncRound_iterate_sum key 32 (v0, v1, 0) hz]
    show (0 + 32 * xteaDelta) % M32 = xteaDecSum
    decide
  have hst : ((xteaEncRound key)^[32] (v0, v1, 0)) =
      (((xteaEncRound key)^[32] (v0, v1, 0)).1,
       ((xteaEncRound key)^[32] (v0, v1, 0)).2.1, xteaDecSum) := by
    rw [← hsum]
  have hinv := xteaDec_iterate_enc_iterate key 32 (v0, v1, 0) hdom
  unfold xteaDecryptPair xteaEncryptPair
  rw [← hst, hinv]

theorem xteaDecRound_iterate_sum (key : XteaKey) (n : Nat) (st : Nat × Nat × Nat)
    (hs : st.2.2 < M32) :
    ((xteaDecRound key)^[n] st).2.2 = (st.2.2 + n * (M32 - xteaDelta)) % M32 := by
  induction n generalizing st with
  | zero =>
      simp only [Function.iterate_zero, id, Nat.zero_mul, Nat.add_zero]
      exact (Nat.mod_eq_of_lt hs).symm
  | succ n ih =>
      rw [Function.iterate_succ_apply, ih _ (wsub_lt _ _)]
      show ((st.2.2 + (M32 - xteaDelta % M32)) % M32 + n * (M32 - xteaDelta)) % M32 = _
      rw [Nat.mod_add_mod]
      have hd : xteaDelta % M32 = xteaDelta := by decide
      rw [hd]
      congr 1
      ring

theorem xteaEncryptPair_encryptPair_inv (key : XteaKey) (v0 v1 : Nat)
    (h0 : v0 < M32) (h1 : v1 < M32) :
    xteaEncryptPair key (xteaDecryptPair key v0 v1).1 (xteaDecryptPair key v0 v1).2
      = (v0, v1) := by
  have hds : xteaDecSum < M32 := by decide
  have hdom : XteaDom (v0, v1, xteaDecSum) := ⟨h0, h1, hds⟩
  have hsum : ((xteaDecRound key)^[32] (v0, v1, xteaDecSum)).2.2 = 0 := by
    rw [xteaDecRound_iterate_sum key 32 (v0, v1, xteaDecSum) hds]
    show (xteaDecSum + 32 * (M32 - xteaDelta)) % M32 = 0
    decide
  have hst : ((xteaDecRound key)^[32] (v0, v1, xteaDecSum)) =
      (((xteaDecRound key)^[32] (v0, v1, xteaDecSum)).1,
       ((xteaDecRound key)^[32] (v0, v1, xteaDecSum)).2.1, 0) := by
    rw [← hsum]
  have hinv := xteaEnc_iterate_dec_iterate key 32 (v0, v1, xteaDecSum) hdom
  unfold xteaEncryptPair xteaDecryptPair
  rw [← hst, hinv]

theorem xteaEncryptPair_lt (key : XteaKey) (v0 v1 : Nat) (h0 : v0 < M32) (h1 : v1 < M32) :
    (xteaEncryptPair key v0 v1).1 < M32 ∧ (xteaEncryptPair key v0 v1).2 < M32 := by
  have hz : (0 : Nat) < M32 := by decide
  have h := xteaEncRound_iterate_dom key 32 (v0, v1, 0) ⟨h0, h1, hz⟩
  exact ⟨h.1, h.2.1⟩

theorem xteaDecryptPair_lt (key : XteaKey) (v0 v1 : Nat) (h0 : v0 < M32) (h1 : v1 < M32) :
    (xteaDecryptPair key v0 v1).1 < M32 ∧ (xteaDecryptPair key v0 v1).2 < M32 := by
  have hds : xteaDecSum < M32 := by decide
  have h := xteaDecRound_iterate_dom key 32 (v0, v1, xteaDecSum) ⟨h0, h1, hds⟩
  exact ⟨h.1, h.2.1⟩

theorem bytesToWord_lt {b0 b1 b2 b3 : Nat} (h0 : b0 < 256) (h1 : b1 < 256)
    (h2 : b2 < 256) (h3 : b3 < 256) : bytesToWord b0 b1 b2 b3 < M32 := by
  unfold bytesToWord M32
  omega

theorem wordToBytes_bytesToWord {b0 b1 b2 b3 : Nat} (h0 : b0 < 256) (h1 : b1 < 256)
    (h2 : b2 < 256) (h3 : b3 < 256) :
    wordToBytes (bytesToWord b0 b1 b2 b3) = [b0, b1, b2, b3] := by
  unfold bytesToWord wordToBytes
  simp only [List.cons.injEq, and_true]
  refine ⟨?_, ?_, ?_, ?_⟩ <;> omega

theorem bytesToWord_wordToBytes {v : Nat} (h : v < M32) :
    bytesToWord (v % 256) (v / 256 % 256) (v / 65536 % 256) (v / 16777216 % 256) = v := by
  unfold bytesToWord M32 at *
  omega

theorem xteaEncryptBlocks_length (key : XteaKey) :
    ∀ data : List Nat, (xteaEncryptBlocks key data).length = data.length
  | [] => rfl
  | [_] => rfl
  | [_, _] => rfl
  | [_, _, _] => rfl
  | [_, _, _, _] => rfl
  | [_, _, _, _, _] => rfl
  | [_, _, _, _, _, _] => rfl
  | [_, _, _, _, _, _, _] => rfl
  | _ :: _ :: _ :: _ :: _ :: _ :: _ :: _ :: rest => by
      simp only [xteaEncryptBlocks, wordToBytes, List.append_assoc, List.length_append,
        List.length_cons, List.length_nil]
      rw [xteaEncryptBlocks_length key rest]
      omega

theorem xteaDecryptBlocks_length (key : XteaKey) :
    ∀ data : List Nat, (xteaDecryptBlocks key data).length = data.length
  | [] => rfl
  | [_] => rfl
  | [_, _] => rfl
  | [_, _, _] => rfl
  | [_, _, _, _] => rfl
  | [_, _, _, _, _] => rfl
  | [_, _, _, _, _, _] => rfl
  | [_, _, _, _, _, _, _] => rfl
  | _ :: _ :: _ :: _ :: _ :: _ :: _ :: _ :: rest => by
      simp only [xteaDecryptBlocks, wordToBytes, List.append_assoc, List.length_append,
        List.length_cons, List.length_nil]
      rw [xteaDecryptBlocks_length key rest]
      omega

theorem xteaDecryptBlocks_encryptBlocks (key : XteaKey) :
    ∀ data : List Nat, (∀ b ∈ data, b < 256) →
      xteaDecryptBlocks key (xteaEncryptBlocks key data) = data
  | [], _ => rfl
  | [_], _ => rfl
  | [_, _], _ => rfl
  | [_, _, _], _ => rfl
  | [_, _, _, _], _ => rfl
  | [_, _, _, _, _], _ => rfl
  | [_, _, _, _, _, _], _ => rfl
  | [_, _, _, _, _, _, _], _ => rfl
  | b0 :: b1 :: b2 :: b3 :: b4 :: b5 :: b6 :: b7 :: rest, h => by
      have h0 : b0 < 256 := h b0 (by simp)
      have h1 : b1 < 256 := h b1 (by simp)
      have h2 : b2 < 256 := h b2 (by simp)
      have h3 : b3 < 256 := h b3 (by simp)
      have h4 : b4 < 256 := h b4 (by simp)
      have h5 : b5 < 256 := h b5 (by simp)
      have h6 : b6 < 256 := h b6 (by simp)
      have h7 : b7 < 256 := h b7 (by simp)
      have hrest : ∀ b ∈ rest, b < 256 := fun b hb => h b (by simp [hb])
      have hw0 : bytesToWord b0 b1 b2 b3 < M32 := bytesToWord_lt h0 h1 h2 h3
      have hw1 : bytesToWord b4 b5 b6 b7 < M32 := bytesToWord_lt h4 h5 h6 h7
      have hp := xteaEncryptPair_lt key _ _ hw0 hw1
      simp only [xteaEncryptBlocks, wordToBytes, List.cons_append, List.nil_append]
      simp only [xteaDecryptBlocks]
      rw [bytesToWord_wordToBytes hp.1, bytesToWord_wordToBytes hp.2,
        xteaDecryptPair_encryptPair key _ _ hw0 hw1]
      simp only [wordToBytes, List.cons_append, List.nil_append]
      rw [xteaDecryptBlocks_encryptBlocks key rest hrest]
      simp only [List.cons.injEq, and_true]
      unfold bytesToWord
      refine ⟨?_, ?_, ?_, ?_, ?_, ?_, ?_, ?_⟩ <;> omega

theorem xteaEncryptBlocks_decryptBlocks (key : XteaKey) :
    ∀ data : List Nat, (∀ b ∈ data, b < 256) →
      xteaEncryptBlocks key (xteaDecryptBlocks key data) = data
  | [], _ => rfl
  | [_], _ => rfl
  | [_, _], _ => rfl
  | [_, _, _], _ => rfl
  | [_, _, _, _], _ => rfl
  | [_, _, _, _, _], _ => rfl
  | [_, _, _, _, _, _], _ => rfl
  | [_, _, _, _, _, _, _], _ => rfl
  | b0 :: b1 :: b2 :: b3 :: b4 :: b5 :: b6 :: b7 :: rest, h => by
      have h0 : b0 < 256 := h b0 (by simp)
      have h1 : b1 < 256 := h b1 (by simp)
      have h2 : b2 < 256 := h b2 (by simp)
      have h3 : b3 < 256 := h b3 (by simp)
      have h4 : b4 < 256 := h b4 (by simp)
      have h5 : b5 < 256 := h b5 (by simp)
      have h6 : b6 < 256 := h b6 (by simp)
      have h7 : b7 < 256 := h b7 (by simp)
      have hrest : ∀ b ∈ rest, b < 256 := fun b hb => h b (by simp [hb])
      have hw0 : bytesToWord b0 b1 b2 b3 < M32 := bytesToWord_lt h0 h1 h2 h3
      have hw1 : bytesToWord b4 b5 b6 b7 < M32 := bytesToWord_lt h4 h5 h6 h7
      have hp := xteaDecryptPair_lt key _ _ hw0 hw1
      simp only [xteaDecryptBlocks, wordToBytes, List.cons_append, List.nil_append]
      simp only [xteaEncryptBlocks]
      rw [bytesToWord_wordToBytes hp.1, bytesToWord_wordToBytes hp.2,
        xteaEncryptPair_encryptPair_inv key _ _ hw0 hw1]
      simp only [wordToBytes, List.cons_append, List.nil_append]
      rw [xteaEncryptBlocks_decryptBlocks key rest hrest]
      simp only [List.cons.injEq, and_true]
      unfold bytesToWord
      refine ⟨?_, ?_, ?_, ?_, ?_, ?_, ?_, ?_⟩ <;> omega

theorem statusScan_spec (cutoff : Int) (address : Nat) :
    ∀ (l kept : List StatusRecord) (recent : Bool),
      statusScan cutoff address l kept recent =
        (kept ++ l.filter (fun r => decide (r.timepoint ≥ cutoff)),
         recent || (l.filter (fun r => decide (r.timepoint ≥ cutoff))).any
           (fun r => decide (r.address = address)))
  | [], kept, recent => by simp [statusScan]
  | r :: rest, kept, recent => by
      by_cases h : r.timepoint ≥ cutoff
      · rw [statusScan, if_pos h, statusScan_spec cutoff address rest]
        simp [h, List.filter_cons, Bool.or_assoc]
      · rw [statusScan, if_neg h, statusScan_spec cutoff address rest]
        simp [h, List.filter_cons]

/-- C9: every status-service admission check first prunes the records older
than `minRequestInterval` (keeping the rest in order), denies the peer
exactly when a retained record carries the peer address, and appends a fresh
record for the peer exactly when the request is allowed. -/
theorem claim_C9_status_rate_limit (records : List StatusRecord) (address : Nat)
    (now minRequestInterval : Int) :
    (allowStatusRequest records address now minRequestInterval).1 =
      !((records.filter
          (fun r => decide (r.timepoint ≥ now - minRequestInterval))).any
        (fun r => decide (r.address = address))) ∧
    (allowStatusRequest records address now minRequestInterval).2 =
      records.filter (fun r => decide (r.timepoint ≥ now - minRequestInterval)) ++
        (if (allowStatusRequest records address now minRequestInterval).1
         then [⟨address, now⟩] else []) := by
  set retained := records.filter
      (fun r => decide (r.timepoint ≥ now - minRequestInterval)) with hret
  set recent := retained.any (fun r => decide (r.address = address)) with hrec
  have hs : statusScan (now - minRequestInterval) address records [] false
      = (retained, recent) := by
    rw [statusScan_spec, List.nil_append, Bool.false_or]
  simp only [allowStatusRequest, hs]
  cases recent with
  | false => simp
  | true => simp

/-- C4 counterexample: with no attached player, the enter-world byte `0x0F`
detaches the connection instead of being the one valid command, and with a
dead player the ping byte `0x1E` is silently ignored instead of detaching. -/
theorem claim_C4_counterexample :
    parsePacket false none [15] = DispatchOutcome.detach ∧
    parsePacket false (some ⟨true, false⟩) [30] ≠ DispatchOutcome.detach := by
  decide

/-- C4 (amended): when no player is attached every command, `0x0F` included,
detaches the connection; when the attached player is dead or removed,
`0x14` is honoured as logout, `0x0F` detaches, and every other command is
ignored without detaching. -/
theorem claim_C4_dispatch_guard (p : GamePlayer) (command : Nat) (rest : List Nat)
    (hdead : p.isDead || p.isRemoved) :
    parsePacket false none (command :: rest) = DispatchOutcome.detach ∧
    (command % 256 = 20 →
      parsePacket false (some p) (command :: rest) = DispatchOutcome.logout) ∧
    (command % 256 = 15 →
      parsePacket false (some p) (command :: rest) = DispatchOutcome.detach) ∧
    (command % 256 ≠ 20 → command % 256 ≠ 15 →
      parsePacket false (some p) (command :: rest) = DispatchOutcome.ignored) := by
  refine ⟨rfl, ?_, ?_, ?_⟩
  · intro h20
    simp [parsePacket, hdead, h20]
  · intro h15
    simp [parsePacket, hdead, h15]
  · intro h20 h15
    simp [parsePacket, hdead, h20, h15]

theorem claim_C4_dispatch_guard_witness :
    ((true : Bool) || false) = true ∧
    parsePacket false none [20] = DispatchOutcome.detach ∧
    parsePacket false (some ⟨true, false⟩) [20] = DispatchOutcome.logout := by
  have h := claim_C4_dispatch_guard ⟨true, false⟩ 20 [] (by decide)
  exact ⟨by decide, h.1, h.2.1 (by decide)⟩

theorem scanWaitList_stuck (e : WaitSlotEntry) (rest : List WaitSlotEntry) (now : Int)
    (guid : Nat) (hnow : ¬ e.timeout ≤ now) (hguid : ¬ e.playerGuid = guid) :
    ∀ (fuel freeAccount premiumAccount : Nat),
      scanWaitList (e :: rest) now guid fuel 0 freeAccount premiumAccount = none
  | 0, _, _ => rfl
  | fuel + 1, fa, pa => by
      cases hp : e.premium with
      | false =>
          simp [scanWaitList, hnow, hguid, hp]
          exact scanWaitList_stuck e rest now guid hnow hguid fuel (fa + 1) pa
      | true =>
          simp [scanWaitList, hnow, hguid, hp]
          exact scanWaitList_stuck e rest now guid hnow hguid fuel fa (pa + 1)

/-- C1: the wait-slot computation does not terminate.  `GetWaitSlot` never
advances the iterator inside its counting loop, so whenever the pruned wait
list starts with a non-expired entry of another player the loop runs
forever: with one player online of one allowed, a wait list holding a live
entry for guid 42, and a free account with guid 7 logging in, the embedded
`getWaitSlot` exits for no amount of fuel. -/
theorem claim_C1_getWaitSlot_diverges (fuel : Nat) :
    getWaitSlot fuel ⟨false, false, false, 7⟩ 1 1 0 [⟨100, 42, false⟩] = none := by
  have hscan := scanWaitList_stuck ⟨100, 42, false⟩ [] 0 7 (by decide) (by decide)
    fuel 0 0
  simp [getWaitSlot, List.dropWhile, hscan]

/-- C2: shape of the authentication failure responses of the login service.
`HttpHandleLogin` builds `HttpResponse{status = 400}` with body
`{errorCode: 3, errorMessage: "Email address or password is not correct."}`
for a failed email/password check and `errorCode 6` for a missing (or
non-string) TOTP token when the account has a secret — but
`HttpHandleRequest` constructs the wire response with
`beast::http::status::ok`, dropping the handler status, so the client
receives HTTP 200 with the error body rather than the HTTP 400 the claim
states. -/
theorem claim_C2_login_error_shape :
    (HttpHandleLogin none "1a" (fun _ _ => "") 0 none true "" 0
        Jval.null Jval.null).status = 400 ∧
    (HttpHandleLogin none "1a" (fun _ _ => "") 0 none true "" 0
        Jval.null Jval.null).body =
      Jval.obj [("errorCode", Jval.num 3),
        ("errorMessage", Jval.str "Email address or password is not correct.")] ∧
    (HttpHandleLogin (some ⟨1, "1a", "SECRET", 0⟩) "1a" (fun _ _ => "123456") 0 none
        true "" 0 Jval.null Jval.null).status = 400 ∧
    (HttpHandleLogin (some ⟨1, "1a", "SECRET", 0⟩) "1a" (fun _ _ => "123456") 0 none
        true "" 0 Jval.null Jval.null).body =
      Jval.obj [("errorCode", Jval.num 6),
        ("errorMessage", Jval.str "Two-factor token required for authentication.")] ∧
    (HttpHandleRequest (some "login")
        (fun _ => HttpHandleLogin none "1a" (fun _ _ => "") 0 none true "" 0
          Jval.null Jval.null)
        (fun _ => HttpBadRequest 2 "Internal error.")).status = 200 := by
  refine ⟨rfl, rfl, ?_, ?_, rfl⟩
  · simp [HttpHandleLogin, HttpBadRequest]
  · simp [HttpHandleLogin, HttpBadRequest]

/-- C10: NetworkMessage accessors are total and overrun-sticky.  A read with
too few remaining bytes returns the default zero without touching the
buffer while still advancing the read cursor, which makes `isOverrun` true;
once the read cursor has overrun, every further read returns zero and stays
overrun; `getRemainingLength` and `getWrittenLength` report zero on any
overrun message; and the write accessors past capacity advance the write
cursor without storing anything, making the overrun observable. -/
theorem claim_C10_networkmessage_overrun (m : NetworkMessage) (width v : Nat)
    (bytes : List Nat) :
    (¬ m.canRead width → (m.getNum width).1 = 0 ∧
        (m.getNum width).2.rdpos = m.rdpos + width ∧
        (m.getNum width).2.buffer = m.buffer ∧
        (m.getNum width).2.isOverrun = true) ∧
    (¬ m.canRead 1 → m.getByte.1 = 0 ∧ m.getByte.2.rdpos = m.rdpos + 1 ∧
        m.getByte.2.buffer = m.buffer ∧ m.getByte.2.isOverrun = true) ∧
    (m.rdpos > m.wrpos → (m.getNum width).1 = 0 ∧ m.getByte.1 = 0 ∧
        (m.getNum width).2.rdpos > (m.getNum width).2.wrpos) ∧
    (m.isOverrun = true → m.getRemainingLength = 0 ∧ m.getWrittenLength = 0) ∧
    (¬ m.canAdd 1 → (m.addByte v).buffer = m.buffer ∧
        (m.addByte v).wrpos = m.wrpos + 1 ∧ (m.addByte v).isOverrun = true) ∧
    (¬ m.canAdd width → (m.addNum width v).buffer = m.buffer ∧
        (m.addNum width v).wrpos = m.wrpos + width ∧
        (m.addNum width v).isOverrun = true) ∧
    (¬ m.canAdd bytes.length → (m.addBytes bytes).buffer = m.buffer ∧
        (m.addBytes bytes).wrpos = m.wrpos + bytes.length ∧
        (m.addBytes bytes).isOverrun = true) := by
  refine ⟨?_, ?_, ?_, ?_, ?_, ?_, ?_⟩
  · intro h
    simp only [NetworkMessage.canRead, decide_eq_true_eq] at h
    refine ⟨by simp [NetworkMessage.getNum, NetworkMessage.canRead, h], rfl, rfl, ?_⟩
    simp only [NetworkMessage.getNum, NetworkMessage.isOverrun]
    simp only [gt_iff_lt, Bool.or_eq_true, decide_eq_true_eq]
    omega
  · intro h
    simp only [NetworkMessage.canRead, decide_eq_true_eq] at h
    refine ⟨by simp [NetworkMessage.getByte, NetworkMessage.canRead, h], rfl, rfl, ?_⟩
    simp only [NetworkMessage.getByte, NetworkMessage.isOverrun]
    simp only [gt_iff_lt, Bool.or_eq_true, decide_eq_true_eq]
    omega
  · intro h
    refine ⟨?_, ?_, ?_⟩
    · simp only [NetworkMessage.getNum, NetworkMessage.canRead]
      rw [if_neg (by simp; omega)]
    · simp only [NetworkMessage.getByte, NetworkMessage.canRead]
      rw [if_neg (by simp; omega)]
    · simp only [NetworkMessage.getNum]
      omega
  · intro h
    constructor
    · simp [NetworkMessage.getRemainingLength, h]
    · simp [NetworkMessage.getWrittenLength, h]
  · intro h
    refine ⟨by simp [NetworkMessage.addByte, h], rfl, ?_⟩
    simp only [NetworkMessage.canRead, NetworkMessage.canAdd, decide_eq_true_eq] at h
    simp only [NetworkMessage.addByte, NetworkMessage.isOverrun]
    simp only [gt_iff_lt, Bool.or_eq_true, decide_eq_true_eq]
    omega
  · intro h
    refine ⟨by simp [NetworkMessage.addNum, h], rfl, ?_⟩
    simp only [NetworkMessage.canAdd, decide_eq_true_eq] at h
    simp only [NetworkMessage.addNum, NetworkMessage.isOverrun]
    simp only [gt_iff_lt, Bool.or_eq_true, decide_eq_true_eq]
    omega
  · intro h
    refine ⟨by simp [NetworkMessage.addBytes, h], rfl, ?_⟩
    simp only [NetworkMessage.canAdd, decide_eq_true_eq] at h
    simp only [NetworkMessage.addBytes, NetworkMessage.isOverrun]
    simp only [gt_iff_lt, Bool.or_eq_true, decide_eq_true_eq]
    omega

theorem claim_C10_networkmessage_overrun_witness :
    (¬ NetworkMessage.canRead ⟨0, 0, fun _ => 0⟩ 4) ∧
    ((NetworkMessage.getNum ⟨0, 0, fun _ => 0⟩ 4).1 = 0 ∧
      (NetworkMessage.getNum ⟨0, 0, fun _ => 0⟩ 4).2.rdpos = 0 + 4 ∧
      (NetworkMessage.getNum ⟨0, 0, fun _ => 0⟩ 4).2.buffer =
        (⟨0, 0, fun _ => 0⟩ : NetworkMessage).buffer ∧
      (NetworkMessage.getNum ⟨0, 0, fun _ => 0⟩ 4).2.isOverrun = true) ∧
    (¬ NetworkMessage.canAdd ⟨0, 24576, fun _ => 0⟩ 1) ∧
    ((NetworkMessage.addByte ⟨0, 24576, fun _ => 0⟩ 7).buffer =
        (⟨0, 24576, fun _ => 0⟩ : NetworkMessage).buffer ∧
      (NetworkMessage.addByte ⟨0, 24576, fun _ => 0⟩ 7).wrpos = 24576 + 1 ∧
      (NetworkMessage.addByte ⟨0, 24576, fun _ => 0⟩ 7).isOverrun = true) :=
  ⟨by decide,
   (claim_C10_networkmessage_overrun ⟨0, 0, fun _ => 0⟩ 4 7 [1, 2]).1 (by decide),
   by decide,
   (claim_C10_networkmessage_overrun ⟨0, 24576, fun _ => 0⟩ 4 7 [1, 2]).2.2.2.2.1
     (by decide)⟩

/-- C7: for every byte buffer whose length is a multiple of eight and every
128-bit key, decrypting and then encrypting with the same key restores the
buffer, and symmetrically encrypting and then decrypting restores it. -/
theorem claim_C7_xtea_roundtrip (key : XteaKey) (data : List Nat)
    (hbytes : ∀ b ∈ data, b < 256) (hlen : data.length % 8 = 0) :
    (XteaEncrypt key data).bind (XteaDecrypt key) = some data ∧
    (XteaDecrypt key data).bind (XteaEncrypt key) = some data := by
  have hne : ¬ data.length % 8 ≠ 0 := by omega
  constructor
  · rw [XteaEncrypt, if_neg hne, Option.some_bind, XteaDecrypt]
    rw [xteaEncryptBlocks_length, if_neg hne,
      xteaDecryptBlocks_encryptBlocks key data hbytes]
  · rw [XteaDecrypt, if_neg hne, Option.some_bind, XteaEncrypt]
    rw [xteaDecryptBlocks_length, if_neg hne,
      xteaEncryptBlocks_decryptBlocks key data hbytes]

theorem claim_C7_xtea_roundtrip_witness :
    ((∀ b ∈ ([1, 2, 3, 4, 5, 6, 7, 8] : List Nat), b < 256) ∧
      ([1, 2, 3, 4, 5, 6, 7, 8] : List Nat).length % 8 = 0) ∧
    ((XteaEncrypt ⟨1, 2, 3, 4⟩ [1, 2, 3, 4, 5, 6, 7, 8]).bind
        (XteaDecrypt ⟨1, 2, 3, 4⟩) = some [1, 2, 3, 4, 5, 6, 7, 8] ∧
      (XteaDecrypt ⟨1, 2, 3, 4⟩ [1, 2, 3, 4, 5, 6, 7, 8]).bind
        (XteaEncrypt ⟨1, 2, 3, 4⟩) = some [1, 2, 3, 4, 5, 6, 7, 8]) :=
  ⟨⟨by decide, by decide⟩,
    claim_C7_xtea_roundtrip ⟨1, 2, 3, 4⟩ [1, 2, 3, 4, 5, 6, 7, 8]
      (by decide) (by decide)⟩

theorem getD_take {l : List Nat} {n i : Nat} (h : i < n) (d : Nat) :
    (l.take n).getD i d = l.getD i d := by
  simp [List.getD, List.getElem?_take, h]

theorem writeBytesAt_eq_of_lt :
    ∀ (l : List Nat) (buf : Nat → Nat) (pos i : Nat), i < pos →
      writeBytesAt buf pos l i = buf i
  | [], _, _, _, _ => rfl
  | b :: rest, buf, pos, i, h => by
      rw [writeBytesAt, writeBytesAt_eq_of_lt rest _ (pos + 1) i (by omega)]
      simp only [if_neg (by omega : ¬ i = pos)]

theorem writeBytesAt_get :
    ∀ (l : List Nat) (buf : Nat → Nat) (pos i : Nat), i < l.length →
      writeBytesAt buf pos l (pos + i) = l.getD i 0
  | [], _, _, i, h => by simp at h
  | b :: rest, buf, pos, i, h => by
      match i with
      | 0 =>
          rw [Nat.add_zero, writeBytesAt,
            writeBytesAt_eq_of_lt rest _ (pos + 1) pos (by omega)]
          simp
      | i + 1 =>
          rw [writeBytesAt, show pos + (i + 1) = (pos + 1) + i by omega,
            writeBytesAt_get rest _ (pos + 1) i (by simp at h; omega)]
          simp [List.getD]

theorem readLE_congr (buf1 buf2 : Nat → Nat) :
    ∀ (w pos : Nat), (∀ i, i < w → buf1 (pos + i) = buf2 (pos + i)) →
      readLE buf1 pos w = readLE buf2 pos w
  | 0, _, _ => rfl
  | w + 1, pos, h => by
      have hrec := readLE_congr buf1 buf2 w (pos + 1) (fun i hi => by
        have h2 := h (1 + i) (by omega)
        rw [show pos + (1 + i) = pos + 1 + i by omega] at h2
        exact h2)
      have h0 := h 0 (by omega)
      rw [Nat.add_zero] at h0
      rw [readLE, readLE, h0, hrec]

theorem isOverrun_mk (rd wr : Nat) (buf : Nat → Nat) (h1 : rd ≤ wr)
    (h2 : wr ≤ NETWORKMESSAGE_MAXSIZE) :
    ({ rdpos := rd, wrpos := wr, buffer := buf } : NetworkMessage).isOverrun = false := by
  simp only [NetworkMessage.isOverrun, gt_iff_lt, Bool.or_eq_false_iff,
    decide_eq_false_iff_not, not_lt]
  exact ⟨h1, h2⟩

theorem remainingBytes_mk (rd wr : Nat) (buf : Nat → Nat) (h1 : rd ≤ wr)
    (h2 : wr ≤ NETWORKMESSAGE_MAXSIZE) :
    ({ rdpos := rd, wrpos := wr, buffer := buf } : NetworkMessage).remainingBytes
      = (List.range (wr - rd)).map (fun i => buf (rd + i)) := by
  simp [NetworkMessage.remainingBytes, NetworkMessage.getRemainingLength,
    isOverrun_mk rd wr buf h1 h2]

theorem readGamePacket_tail_case (c c2 : Nat) (payload : List Nat)
    (blocks packetLen : Nat) (B : Nat → Nat)
    (hpl : packetLen = 4 + blocks * 8) (hmax : packetLen ≤ NETWORKMESSAGE_MAXSIZE)
    (hb1 : 1 ≤ blocks)
    (h : (let padRead := ({ rdpos := 4, wrpos := packetLen, buffer := B } :
            NetworkMessage).getByte
          let dp := padRead.2.discardPadding padRead.1
          if dp.1 then some (dp.2.remainingBytes, (c + 1) % M32) else none)
        = some (payload, c2))
    (hfseq : frameSequence stream0 = some c)
    (hfblocks : frameBlocks stream0 = some blocks)
    (hfpad : framePadding key0 stream0 enc0 = some (B 4)) :
    c2 = (c + 1) % M32 ∧ frameSequence stream0 = some c ∧
    ∃ b pad, frameBlocks stream0 = some b ∧ 1 ≤ b ∧
      framePadding key0 stream0 enc0 = some pad ∧ pad + 1 ≤ 8 * b := by
  have hcr1 : ({ rdpos := 4, wrpos := packetLen, buffer := B } :
      NetworkMessage).canRead 1 = true := by
    simp only [NetworkMessage.canRead, decide_eq_true_eq]
    omega
  have hgb : ({ rdpos := 4, wrpos := packetLen, buffer := B } :
      NetworkMessage).getByte
      = (B 4, { rdpos := 5, wrpos := packetLen, buffer := B }) := by
    simp [NetworkMessage.getByte, hcr1]
  rw [hgb] at h
  dsimp only at h
  have hgrl : ({ rdpos := 5, wrpos := packetLen, buffer := B } :
      NetworkMessage).getRemainingLength = packetLen - 5 := by
    simp [NetworkMessage.getRemainingLength,
      isOverrun_mk 5 packetLen B (by omega) hmax]
  by_cases hpd : B 4 > packetLen - 5
  · have hdp : ({ rdpos := 5, wrpos := packetLen, buffer := B } :
        NetworkMessage).discardPadding (B 4) = (false,
          { rdpos := 5, wrpos := packetLen, buffer := B }) := by
      rw [NetworkMessage.discardPadding, if_pos (by omega)]
    rw [hdp] at h
    exact absurd h (by simp)
  · have hdp : ({ rdpos := 5, wrpos := packetLen, buffer := B } :
        NetworkMessage).discardPadding (B 4) = (true,
          { rdpos := 5, wrpos := packetLen - B 4, buffer := B }) := by
      rw [NetworkMessage.discardPadding, if_neg (by omega)]
    rw [hdp] at h
    simp only [if_true, Option.some.injEq, Prod.mk.injEq] at h
    refine ⟨h.2.symm, hfseq, blocks, B 4, hfblocks, hb1, hfpad, by omega⟩

theorem readGamePacket_anatomy (key : XteaKey) (c : Nat) (stream : List Nat)
    (enc : Bool) (payload : List Nat) (c2 : Nat)
    (h : readGamePacket key c stream enc = some (payload, c2)) :
    c2 = (c + 1) % M32 ∧ frameSequence stream = some c ∧
    ∃ b pad, frameBlocks stream = some b ∧ 1 ≤ b ∧
      framePadding key stream enc = some pad ∧ pad + 1 ≤ 8 * b := by
  match stream with
  | [] => exact absurd h (by simp [readGamePacket])
  | [b0] => exact absurd h (by simp [readGamePacket])
  | b0 :: b1 :: rest =>
    simp only [readGamePacket] at h
    set blocks := b0 % 256 + 256 * (b1 % 256) with hblocks
    set packetLen := 4 + blocks * 8 with hpl
    set buf : Nat → Nat := fun i => (rest.take packetLen).getD i 0 % 256 with hbuf
    by_cases hg : blocks = 0 ∨ packetLen > NETWORKMESSAGE_MAXSIZE
    · rw [if_pos hg] at h
      exact absurd h (by simp)
    rw [if_neg hg] at h
    have hb1 : 1 ≤ blocks := by
      rcases Nat.eq_zero_or_pos blocks with h0 | h0
      · exact absurd (Or.inl h0) hg
      · exact h0
    have hmax : packetLen ≤ NETWORKMESSAGE_MAXSIZE := by
      by_contra hc
      exact hg (Or.inr (by omega))
    by_cases hl : rest.length < packetLen
    · rw [if_pos hl] at h
      exact absurd h (by simp)
    rw [if_neg hl] at h
    have hpl4 : 4 ≤ packetLen := by omega
    have hcanread : ({ rdpos := 0, wrpos := packetLen, buffer := buf } :
        NetworkMessage).canRead 4 = true := by
      simp only [NetworkMessage.canRead, decide_eq_true_eq]
      omega
    have hseqread : ({ rdpos := 0, wrpos := packetLen, buffer := buf } :
        NetworkMessage).getNum 4
        = (readLE buf 0 4, { rdpos := 4, wrpos := packetLen, buffer := buf }) := by
      simp [NetworkMessage.getNum, hcanread]
    rw [hseqread] at h
    by_cases hseq : readLE buf 0 4 ≠ c
    · rw [if_pos hseq] at h
      exact absurd h (by simp)
    rw [if_neg hseq] at h
    rw [Classical.not_not] at hseq
    have hfseq : frameSequence (b0 :: b1 :: rest) = some c := by
      rw [frameSequence, ← hseq]
      congr 1
      refine readLE_congr _ _ 4 0 (fun i hi => ?_)
      simp only [hbuf, Nat.zero_add]
      rw [getD_take (by omega) 0]
    have hfblocks : frameBlocks (b0 :: b1 :: rest) = some blocks := rfl
    have hrem : ({ rdpos := 4, wrpos := packetLen, buffer := buf } :
        NetworkMessage).remainingBytes
        = (List.range (packetLen - 4)).map (fun i => buf (4 + i)) :=
      remainingBytes_mk 4 packetLen buf (by omega) hmax
    set dlist := (List.range (packetLen - 4)).map (fun i => buf (4 + i)) with hdl
    have hdllen : dlist.length = blocks * 8 := by
      rw [hdl, List.length_map, List.length_range]
      omega
    have hbody : ((List.range (packetLen - 4)).map
        (fun i => rest.getD (4 + i) 0 % 256)) = dlist := by
      rw [hdl]
      refine List.map_congr_left (fun i hi => ?_)
      rw [List.mem_range] at hi
      show rest.getD (4 + i) 0 % 256 = (rest.take packetLen).getD (4 + i) 0 % 256
      rw [getD_take (by omega) 0]
    have hfdec : frameDecrypted key (b0 :: b1 :: rest) enc
        = (if enc then XteaDecrypt key dlist else some dlist) := by
      rw [frameDecrypted]
      rw [if_neg hg, if_neg hl, hbody]
    -- the padding byte seen by getByte, and the buffer after the step
    cases henc : enc with
    | false =>
        rw [henc] at hfdec h
        simp only [Bool.false_eq_true, if_false] at hfdec
        simp only [Bool.false_eq_true, if_false, Option.some_bind] at h
        have hpadv : dlist.getD 0 0 = buf 4 := by
          have hn : packetLen - 4 = (packetLen - 5) + 1 := by omega
          rw [hdl, hn, List.range_succ_eq_map]
          simp
        exact readGamePacket_tail_case c c2 payload blocks packetLen buf
          hpl hmax hb1 h hfseq hfblocks
          (by rw [framePadding, hfdec, Option.map_some', hpadv])
    | true =>
        rw [henc] at hfdec h
        simp only [if_true] at h hfdec
        rw [hrem] at h
        have hdecd : XteaDecrypt key dlist
            = some (xteaDecryptBlocks key dlist) := by
          rw [XteaDecrypt, if_neg (by omega)]
        rw [hdecd, Option.map_some', Option.some_bind] at h
        have hwlen : 0 < (xteaDecryptBlocks key dlist).length := by
          rw [xteaDecryptBlocks_length]
          omega
        have hwr : ({ rdpos := 4, wrpos := packetLen, buffer := buf } :
            NetworkMessage).writeRemaining (xteaDecryptBlocks key dlist)
            = { rdpos := 4, wrpos := packetLen,
                buffer := writeBytesAt buf 4 (xteaDecryptBlocks key dlist) } := rfl
        rw [hwr] at h
        have hpadv : (xteaDecryptBlocks key dlist).getD 0 0
            = writeBytesAt buf 4 (xteaDecryptBlocks key dlist) 4 := by
          have := writeBytesAt_get (xteaDecryptBlocks key dlist) buf 4 0 hwlen
          rw [Nat.add_zero] at this
          exact this.symm
        exact readGamePacket_tail_case c c2 payload blocks packetLen
          (writeBytesAt buf 4 (xteaDecryptBlocks key dlist))
          hpl hmax hb1 h hfseq hfblocks
          (by rw [framePadding, hfdec, hdecd, Option.map_some', hpadv])

/-- C3: for every established game connection the inbound frame sequence
field must equal the client-sequence counter: a frame whose sequence field
differs from the counter is rejected (`ReadGamePacket` returns false and the
reader aborts the connection), and a processed frame carries exactly the
counter value and increments the counter by one. -/
theorem claim_C3_client_sequence (key : XteaKey) (c : Nat) (stream : List Nat)
    (enc : Bool) :
    (∀ s, frameSequence stream = some s → s ≠ c →
      readGamePacket key c stream enc = none) ∧
    (∀ payload c2, readGamePacket key c stream enc = some (payload, c2) →
      frameSequence stream = some c ∧ c2 = (c + 1) % M32) := by
  constructor
  · intro s hs hneq
    cases hr : readGamePacket key c stream enc with
    | none => rfl
    | some p =>
        obtain ⟨payload, c2⟩ := p
        have h := readGamePacket_anatomy key c stream enc payload c2 hr
        rw [h.2.1] at hs
        exact absurd (Option.some.inj hs).symm hneq
  · intro payload c2 hr
    have h := readGamePacket_anatomy key c stream enc payload c2 hr
    exact ⟨h.2.1, h.1⟩

theorem claim_C3_client_sequence_witness :
    (frameSequence [1, 0, 0, 0, 0, 0, 0, 1, 2, 3, 4, 5, 6, 7] = some 0 ∧
      (0 : Nat) ≠ 5 ∧
      readGamePacket ⟨1, 2, 3, 4⟩ 5 [1, 0, 0, 0, 0, 0, 0, 1, 2, 3, 4, 5, 6, 7]
        false = none) ∧
    (readGamePacket ⟨1, 2, 3, 4⟩ 0 [1, 0, 0, 0, 0, 0, 0, 1, 2, 3, 4, 5, 6, 7]
        false = some ([1, 2, 3, 4, 5, 6, 7], 1) ∧
      frameSequence [1, 0, 0, 0, 0, 0, 0, 1, 2, 3, 4, 5, 6, 7] = some 0 ∧
      (1 : Nat) = (0 + 1) % M32) := by
  have h := claim_C3_client_sequence ⟨1, 2, 3, 4⟩ 5
    [1, 0, 0, 0, 0, 0, 0, 1, 2, 3, 4, 5, 6, 7] false
  have h2 := claim_C3_client_sequence ⟨1, 2, 3, 4⟩ 0
    [1, 0, 0, 0, 0, 0, 0, 1, 2, 3, 4, 5, 6, 7] false
  refine ⟨⟨by decide, by decide, h.1 0 (by decide) (by decide)⟩,
    by decide, (h2.2 [1, 2, 3, 4, 5, 6, 7] 1 (by decide)).1,
    (h2.2 [1, 2, 3, 4, 5, 6, 7] 1 (by decide)).2⟩

/-- C6 counterexample: `ReadGamePacket` accepts the one-block frame
`c6Stream`, whose decrypted region has length 8 and padding byte 7, although
`7 + 2 ≤ 8` fails — the bound the code enforces is `padding + 1 ≤
decrypted_length`, not `padding + 2 ≤ decrypted_length`. -/
theorem claim_C6_counterexample :
    readGamePacket ⟨0, 0, 0, 0⟩ 0 c6Stream true = some ([], 1) ∧
    frameBlocks c6Stream = some 1 ∧
    framePadding ⟨0, 0, 0, 0⟩ c6Stream true = some 7 ∧
    ¬ (7 + 2 ≤ 8 * 1) := by
  decide

/-- C6 (amended): an inbound frame is accepted only if, after XTEA
decryption and reading the one-byte padding count from the front,
`padding + 1 ≤ decrypted_length` holds in bytes of the decrypted region
(`8 · xtea_block_count`); a frame violating this bound is rejected and the
connection aborted. -/
theorem claim_C6_padding_bound (key : XteaKey) (c : Nat) (stream : List Nat)
    (enc : Bool) (payload : List Nat) (c2 : Nat)
    (h : readGamePacket key c stream enc = some (payload, c2)) :
    ∃ b pad, frameBlocks stream = some b ∧
      framePadding key stream enc = some pad ∧ pad + 1 ≤ 8 * b := by
  obtain ⟨-, -, b, pad, hb, -, hp, hle⟩ :=
    readGamePacket_anatomy key c stream enc payload c2 h
  exact ⟨b, pad, hb, hp, hle⟩

theorem claim_C6_padding_bound_witness :
    readGamePacket ⟨0, 0, 0, 0⟩ 0 c6Stream true = some ([], 1) ∧
    (∃ b pad, frameBlocks c6Stream = some b ∧
      framePadding ⟨0, 0, 0, 0⟩ c6Stream true = some pad ∧ pad + 1 ≤ 8 * b) :=
  ⟨by decide, claim_C6_padding_bound ⟨0, 0, 0, 0⟩ 0 c6Stream true [] 1 (by decide)⟩

theorem natLE_length (v : Nat) : ∀ w : Nat, (natLE v w).length = w
  | 0 => rfl
  | w + 1 => by
      rw [natLE, List.length_cons, natLE_length (v / 256) w]

theorem writeBytesAt_eq_of_ge :
    ∀ (l : List Nat) (buf : Nat → Nat) (pos i : Nat), pos + l.length ≤ i →
      writeBytesAt buf pos l i = buf i
  | [], _, _, _, _ => rfl
  | b :: rest, buf, pos, i, h => by
      rw [List.length_cons] at h
      rw [writeBytesAt, writeBytesAt_eq_of_ge rest _ (pos + 1) i (by omega)]
      simp only [if_neg (by omega : ¬ i = pos)]

theorem readLE_natLE : ∀ (w v : Nat) (buf : Nat → Nat) (pos : Nat),
    readLE (writeBytesAt buf pos (natLE v w)) pos w = v % 256 ^ w
  | 0, v, buf, pos => by simp [readLE, natLE, writeBytesAt, Nat.mod_one]
  | w + 1, v, buf, pos => by
      rw [natLE, writeBytesAt, readLE]
      rw [writeBytesAt_eq_of_lt _ _ _ _ (by omega)]
      rw [show (if pos = pos then v % 256 else buf pos) = v % 256 from if_pos rfl]
      rw [readLE_natLE w (v / 256) _ (pos + 1)]
      rw [pow_succ']
      rw [Nat.mod_mul]

theorem isOverrun_false (m : NetworkMessage) (h1 : m.rdpos ≤ m.wrpos)
    (h2 : m.wrpos ≤ NETWORKMESSAGE_MAXSIZE) : m.isOverrun = false := by
  simp only [NetworkMessage.isOverrun, gt_iff_lt, Bool.or_eq_false_iff,
    decide_eq_false_iff_not, not_lt]
  exact ⟨h1, h2⟩

theorem getOutputLength_eq (m : OutputMessage) (h1 : m.rdpos ≤ m.wrpos)
    (h2 : m.wrpos ≤ NETWORKMESSAGE_MAXSIZE) :
    m.getOutputLength = m.wrpos - m.start := by
  rw [OutputMessage.getOutputLength, isOverrun_false m.toNetworkMessage h1 h2]
  rfl

theorem addHeader_fields (m : OutputMessage) (width v : Nat) (h : width ≤ m.start) :
    (m.addHeader width v).start = m.start - width ∧
    (m.addHeader width v).headerFault = m.headerFault ∧
    (m.addHeader width v).rdpos = m.rdpos ∧
    (m.addHeader width v).wrpos = m.wrpos ∧
    (m.addHeader width v).buffer =
      writeBytesAt m.buffer (m.start - width) (natLE v width) := by
  rw [OutputMessage.addHeader, if_neg (by omega)]
  exact ⟨rfl, rfl, rfl, rfl, rfl⟩

theorem addRandPadding_fields (rand : Nat → Nat) :
    ∀ (k : Nat) (m : OutputMessage),
      (addRandPadding rand m k).start = m.start ∧
      (addRandPadding rand m k).headerFault = m.headerFault ∧
      (addRandPadding rand m k).rdpos = m.rdpos ∧
      (addRandPadding rand m k).wrpos = m.wrpos + k
  | 0, m => by simp [addRandPadding]
  | k + 1, m => by
      have ih := addRandPadding_fields rand k (m.addByte (rand k))
      rw [addRandPadding]
      refine ⟨ih.1.trans rfl, ih.2.1.trans rfl, ih.2.2.1.trans rfl, ?_⟩
      rw [ih.2.2.2]
      show m.wrpos + 1 + k = m.wrpos + (k + 1)
      omega

theorem protoXTEAEncrypt_trace (key : XteaKey) (rand : Nat → Nat)
    (m : OutputMessage) (h1 : m.rdpos ≤ m.wrpos)
    (h2 : m.wrpos + 7 ≤ NETWORKMESSAGE_MAXSIZE) :
    ∃ m3, protoXTEAEncrypt key rand m = some m3 ∧
      m3.start = m.start ∧ m3.headerFault = m.headerFault ∧
      m3.rdpos = m.rdpos ∧
      m3.wrpos = m.wrpos + (8 - m.getOutputLength % 8) % 8 := by
  have hpad := addRandPadding_fields rand ((8 - m.getOutputLength % 8) % 8) m
  have hple : (8 - m.getOutputLength % 8) % 8 ≤ 7 := by omega
  have hov : (addRandPadding rand m
      ((8 - m.getOutputLength % 8) % 8)).toNetworkMessage.isOverrun = false := by
    refine isOverrun_false _ ?_ ?_
    · rw [hpad.2.2.1, hpad.2.2.2]
      omega
    · rw [hpad.2.2.2]
      omega
  have heq : protoXTEAEncrypt key rand m
      = some ((addRandPadding rand m
          ((8 - m.getOutputLength % 8) % 8)).writeOutput
        (xteaEncryptBlocks key (addRandPadding rand m
          ((8 - m.getOutputLength % 8) % 8)).outputBytes)) := by
    simp only [protoXTEAEncrypt]
    simp only [hov, Bool.false_eq_true, if_false]
  refine ⟨_, heq, ?_, ?_, ?_, ?_⟩
  · exact hpad.1
  · exact hpad.2.1
  · exact hpad.2.2.1
  · exact hpad.2.2.2

theorem wrapSeal_trace (key : XteaKey) (rand : Nat → Nat) (checksum : Nat)
    (msgA : OutputMessage) (hstart : msgA.start = 8) (hrd : msgA.rdpos = 8)
    (hwr : 8 ≤ msgA.wrpos) (hcap : msgA.wrpos + 8 ≤ NETWORKMESSAGE_MAXSIZE) :
    ∃ frame, wrapSeal key rand checksum msgA = some frame ∧
      frame.start = 0 ∧ frame.headerFault = msgA.headerFault ∧
      frameSequenceField frame = checksum % M32 := by
  have h2 := addHeader_fields msgA 2 msgA.getOutputLength (by omega)
  set m2 := msgA.addHeader 2 msgA.getOutputLength with hm2
  obtain ⟨m3, hpx, h3s, h3f, h3r, h3w⟩ := protoXTEAEncrypt_trace key rand m2
    (by rw [h2.2.2.1, h2.2.2.2.1]; omega)
    (by rw [h2.2.2.2.1]; omega)
  have h4 := addHeader_fields m3 4 checksum (by rw [h3s, h2.1, hstart]; omega)
  set m4 := m3.addHeader 4 checksum with hm4
  have h5 := addHeader_fields m4 2 m4.getOutputLength
    (by rw [h4.1, h3s, h2.1, hstart])
  refine ⟨m4.addHeader 2 m4.getOutputLength, ?_, ?_, ?_, ?_⟩
  · rw [wrapSeal]
    simp only [← hm2]
    rw [hpx, Option.some_bind, ← hm4]
  · rw [h5.1, h4.1, h3s, h2.1, hstart]
  · rw [h5.2.1, h4.2.1, h3f, h2.2.1]
  · rw [frameSequenceField]
    rw [h5.1, h4.1, h3s, h2.1, hstart]
    rw [h5.2.2.2.2, h4.1, h3s, h2.1, hstart]
    show readLE _ 2 4 = checksum % M32
    have hcongr : readLE (writeBytesAt m4.buffer (8 - 2 - 4 - 2) (natLE
        m4.getOutputLength 2)) 2 4 = readLE m4.buffer 2 4 := by
      refine readLE_congr _ _ 4 2 (fun i hi => ?_)
      refine writeBytesAt_eq_of_ge _ _ _ _ ?_
      rw [natLE_length]
      omega
    rw [hcongr]
    rw [h4.2.2.2.2, h3s, h2.1, hstart]
    show readLE (writeBytesAt m3.buffer 2 (natLE checksum 4)) 2 4 = checksum % M32
    rw [readLE_natLE]
    rfl

theorem deflateMessage_fields (zlib : List Nat → Option (List Nat))
    (msg : OutputMessage) :
    (deflateMessage zlib msg).2.start = msg.start ∧
    (deflateMessage zlib msg).2.headerFault = msg.headerFault ∧
    (deflateMessage zlib msg).2.rdpos = msg.rdpos ∧
    (deflateMessage zlib msg).2.wrpos ≤ msg.wrpos ∧
    msg.wrpos - msg.getOutputLength ≤ (deflateMessage zlib msg).2.wrpos := by
  by_cases h0 : msg.getOutputLength = 0
  · simp [deflateMessage, h0]
  · cases hz : zlib msg.outputBytes with
    | none => simp [deflateMessage, h0, hz]
    | some c =>
        by_cases hc : c.length ≥ msg.getOutputLength
        · simp [deflateMessage, h0, hz, hc]
        · simp only [deflateMessage, hz, if_neg h0, if_neg (by omega : ¬ c.length ≥
            msg.getOutputLength)]
          refine ⟨by simp, by simp, by simp, by simp, by simp; omega⟩

theorem deflateMessage_fst_iff (zlib : List Nat → Option (List Nat))
    (msg : OutputMessage) :
    (deflateMessage zlib msg).1 = true ↔
      msg.getOutputLength ≠ 0 ∧ ∃ c, zlib msg.outputBytes = some c ∧
        c.length < msg.getOutputLength := by
  by_cases h0 : msg.getOutputLength = 0
  · simp [deflateMessage, h0]
  · cases hz : zlib msg.outputBytes with
    | none => simp [deflateMessage, h0, hz]
    | some c =>
        by_cases hc : c.length ≥ msg.getOutputLength
        · simp only [deflateMessage, hz, if_neg h0, if_pos hc]
          simp
          omega
        · simp only [deflateMessage, hz, if_neg h0, if_neg hc]
          simp [h0]
          omega

/-- Deflate/high-bit behaviour of the `Protocol::wrapPacket` path in
sequence-checksum mode: deflate is applied exactly when the pre-compression
payload is at least 128 bytes and the zlib result is strictly smaller than
the payload, and the high bit of the sequence field of the produced frame is
set exactly when compression was applied. -/
theorem wrapPacket_deflate_highbit (sequenceId : Nat)
    (zlib : List Nat → Option (List Nat)) (rand : Nat → Nat) (key : XteaKey)
    (msg : OutputMessage) (hstart : msg.start = 8) (hrd : msg.rdpos = 8)
    (hwr : 8 ≤ msg.wrpos) (hcap : msg.wrpos + 8 ≤ NETWORKMESSAGE_MAXSIZE)
    (hseq : sequenceId < 2147483648) :
    ∃ frame,
      wrapPacket ChecksumMode.sequence true false sequenceId zlib rand key msg
        = some frame ∧
      Nat.testBit (frameSequenceField frame) 31 = wrapDeflateApplied zlib msg ∧
      (wrapDeflateApplied zlib msg = true ↔
        128 ≤ msg.getOutputLength ∧
        ∃ compressed, zlib msg.outputBytes = some compressed ∧
          compressed.length < msg.getOutputLength) := by
  have hov : msg.toNetworkMessage.isOverrun = false :=
    isOverrun_false _ (by omega) (by omega)
  have hlen : msg.getOutputLength = msg.wrpos - 8 := by
    rw [getOutputLength_eq msg (by omega) (by omega), hstart]
  have hiff : wrapDeflateApplied zlib msg = true ↔
      128 ≤ msg.getOutputLength ∧
      ∃ compressed, zlib msg.outputBytes = some compressed ∧
        compressed.length < msg.getOutputLength := by
    rw [wrapDeflateApplied, Bool.and_eq_true, decide_eq_true_eq,
      deflateMessage_fst_iff]
    constructor
    · rintro ⟨h1, -, c, hc1, hc2⟩
      exact ⟨h1, c, hc1, hc2⟩
    · rintro ⟨h1, c, hc1, hc2⟩
      exact ⟨h1, by omega, c, hc1, hc2⟩
  have hunfold : wrapPacket ChecksumMode.sequence true false sequenceId zlib rand
      key msg = wrapSeal key rand
        (if 128 ≤ msg.getOutputLength then
          (if (deflateMessage zlib msg).1 then sequenceId ||| 2147483648
           else sequenceId)
         else sequenceId)
        (if 128 ≤ msg.getOutputLength then (deflateMessage zlib msg).2 else msg) := by
    simp only [wrapPacket, hov, Bool.false_eq_true, if_false, if_true, ge_iff_le]
    by_cases h128 : 128 ≤ msg.getOutputLength
    · simp only [if_pos h128]
    · simp only [if_neg h128]
  by_cases h128 : 128 ≤ msg.getOutputLength
  · have hdf := deflateMessage_fields zlib msg
    have hw1 : 8 ≤ (deflateMessage zlib msg).2.wrpos := by
      have h5 := hdf.2.2.2.2
      rw [hlen] at h5
      clear hiff hunfold hdf
      omega
    have hw2 : (deflateMessage zlib msg).2.wrpos + 8 ≤ NETWORKMESSAGE_MAXSIZE := by
      have h5 := hdf.2.2.2.1
      clear hiff hunfold hdf
      omega
    obtain ⟨frame, hfr, hfs, hff, hfseq⟩ := wrapSeal_trace key rand
      (if (deflateMessage zlib msg).1 then sequenceId ||| 2147483648
       else sequenceId)
      (deflateMessage zlib msg).2
      (hdf.1.trans hstart) (hdf.2.2.1.trans hrd) hw1 hw2
    rw [hunfold, if_pos h128, if_pos h128]
    refine ⟨frame, hfr, ?_, hiff⟩
    rw [hfseq]
    cases hd : (deflateMessage zlib msg).1 with
    | true =>
        rw [if_pos rfl]
        have hlt : sequenceId ||| 2147483648 < M32 := by
          have h1 : sequenceId < 2 ^ 32 := by omega
          have h2 : (2147483648 : Nat) < 2 ^ 32 := by decide
          have := Nat.or_lt_two_pow h1 h2
          rw [show M32 = 2 ^ 32 from rfl]
          exact this
        rw [Nat.mod_eq_of_lt hlt, Nat.testBit_or]
        rw [wrapDeflateApplied, hd]
        simp only [Bool.and_true, decide_eq_true_eq]
        rw [Nat.testBit_eq_false_of_lt (by omega : sequenceId < 2 ^ 31)]
        simp [h128]
        decide
    | false =>
        rw [if_neg (by simp)]
        rw [Nat.mod_eq_of_lt (by unfold M32; omega), wrapDeflateApplied, hd]
        simp only [Bool.and_false]
        exact Nat.testBit_eq_false_of_lt (by omega : sequenceId < 2 ^ 31)
  · obtain ⟨frame, hfr, hfs, hff, hfseq⟩ := wrapSeal_trace key rand sequenceId msg
      hstart hrd hwr hcap
    rw [hunfold, if_neg h128, if_neg h128]
    refine ⟨frame, hfr, ?_, hiff⟩
    rw [hfseq, Nat.mod_eq_of_lt (by unfold M32; omega), wrapDeflateApplied]
    rw [show decide (msg.getOutputLength ≥ 128) = false by simp [h128]]
    rw [Bool.false_and]
    exact Nat.testBit_eq_false_of_lt (by omega : sequenceId < 2 ^ 31)

theorem outputBytes_length (m : OutputMessage) :
    m.outputBytes.length = m.getOutputLength := by
  simp [OutputMessage.outputBytes]

theorem addByte_fields (m : OutputMessage) (v : Nat) :
    (m.addByte v).start = m.start ∧ (m.addByte v).headerFault = m.headerFault ∧
    (m.addByte v).rdpos = m.rdpos ∧ (m.addByte v).wrpos = m.wrpos + 1 := by
  simp [OutputMessage.addByte, NetworkMessage.addByte]

theorem padLoop_ok (rand : Nat → Nat) :
    ∀ (fuel : Nat) (m : OutputMessage) (padding : Nat),
      m.rdpos ≤ m.wrpos → m.start ≤ m.wrpos →
      m.wrpos + fuel ≤ NETWORKMESSAGE_MAXSIZE →
      (8 - ((m.wrpos - m.start + 1) % 8)) % 8 ≤ fuel →
      ∃ m2 k, padLoop rand fuel m padding = some (m2, padding + k) ∧
        m2.start = m.start ∧ m2.headerFault = m.headerFault ∧
        m2.rdpos = m.rdpos ∧ m2.wrpos = m.wrpos + k ∧ k ≤ fuel ∧
        (m.wrpos + k - m.start + 1) % 8 = 0 ∧
        k = (8 - ((m.wrpos - m.start + 1) % 8)) % 8
  | 0, m, padding, h1, h0, h2, h3 => by
      have hlen : m.getOutputLength = m.wrpos - m.start :=
        getOutputLength_eq m h1 (by omega)
      refine ⟨m, 0, ?_, rfl, rfl, rfl, by omega, by omega, by omega, by omega⟩
      rw [padLoop, hlen, if_neg (by omega), Nat.add_zero]
  | fuel + 1, m, padding, h1, h0, h2, h3 => by
      have hlen : m.getOutputLength = m.wrpos - m.start :=
        getOutputLength_eq m h1 (by omega)
      by_cases hmod : (m.wrpos - m.start + 1) % 8 = 0
      · refine ⟨m, 0, ?_, rfl, rfl, rfl, by omega, by omega, by omega, by omega⟩
        rw [padLoop, hlen, if_neg (by omega), Nat.add_zero]
      · have hb := addByte_fields m (rand padding)
        have ih := padLoop_ok rand fuel (m.addByte (rand padding)) (padding + 1)
          (by omega) (by omega) (by omega)
          (by rw [hb.1, hb.2.2.2]; omega)
        obtain ⟨m2, k, hloop, hs, hf, hr, hw, hk, hm, hkv⟩ := ih
        rw [hb.1, hb.2.2.2] at hm hkv
        refine ⟨m2, k + 1, ?_, hs.trans hb.1, hf.trans hb.2.1, hr.trans hb.2.2.1,
          ?_, by omega, ?_, by omega⟩
        · rw [padLoop, hlen, if_pos (by omega)]
          rw [hloop]
          congr 1
          rw [Prod.mk.injEq]
          exact ⟨rfl, by omega⟩
        · rw [hw, hb.2.2.2]
          omega
        · have : m.wrpos + 1 + k = m.wrpos + (k + 1) := by omega
          rw [this] at hm
          exact hm

/-- C8: every `OutputMessage` starts its header region at offset 8
(`reset`), each `addHeader` moves `start` back by the header width, and on
both send paths — `WriteGamePacket` (padding byte, sequence, block count: 7
bytes) and `Protocol::wrapPacket` (inner length, checksum, outer length: 8
bytes) — the prepended headers never exceed the 8 reserved bytes, so the
`assert(start >= (int)sizeof(T))` of `addHeader` never fails and the frame
is produced with `start ≥ 0`. -/
theorem claim_C8_output_start_invariant (seq seqId : Nat) (rand : Nat → Nat)
    (key : XteaKey) (enc : Bool) (mode : ChecksumMode)
    (zlib : List Nat → Option (List Nat)) (m : OutputMessage)
    (hstart : m.start = 8) (hrd : m.rdpos = 8) (hwr : 8 ≤ m.wrpos)
    (hcap : m.wrpos + 8 ≤ NETWORKMESSAGE_MAXSIZE)
    (hfault : m.headerFault = false) :
    (m.reset).start = 8 ∧
    (∀ (m2 : OutputMessage) (width v : Nat), width ≤ m2.start →
      (m2.addHeader width v).start = m2.start - width ∧
      (m2.addHeader width v).headerFault = m2.headerFault) ∧
    (∃ frame seq2, writeGamePacket seq rand key enc m = some (frame, seq2) ∧
      frame.headerFault = false ∧ frame.start = 1) ∧
    (∃ frame, wrapPacket mode true false seqId zlib rand key m = some frame ∧
      frame.headerFault = false ∧ frame.start = 0) := by
  have hov : m.toNetworkMessage.isOverrun = false :=
    isOverrun_false _ (by omega) (by omega)
  refine ⟨rfl, ?_, ?_, ?_⟩
  · intro m2 width v h
    exact ⟨(addHeader_fields m2 width v h).1, (addHeader_fields m2 width v h).2.1⟩
  · -- WriteGamePacket path
    have hM : NETWORKMESSAGE_MAXSIZE = 24576 := rfl
    obtain ⟨m2, k, hloop, hs, hf, hr, hw, hk, hmod, -⟩ :=
      padLoop_ok rand 8 m 0 (by omega) (by omega) (by omega)
        (by rw [hstart]; omega)
    rw [writeGamePacket, hloop, Option.some_bind]
    dsimp only
    have h1h := addHeader_fields m2 1 (0 + k) (by rw [hs, hstart]; omega)
    set o2 := m2.addHeader 1 (0 + k) with ho2
    have ho2wr : o2.wrpos = m.wrpos + k := by rw [h1h.2.2.2.1, hw]
    have ho2rd : o2.rdpos = 8 := by rw [h1h.2.2.1, hr, hrd]
    have ho2st : o2.start = 7 := by rw [h1h.1, hs, hstart]
    have ho2len : o2.getOutputLength = m.wrpos + k - 7 := by
      rw [getOutputLength_eq o2 (by omega) (by omega), ho2wr, ho2st]
    have hlen8 : (m.wrpos + k - 8 + 1) % 8 = 0 := by
      rw [hstart] at hmod
      exact hmod
    have hlenval : o2.getOutputLength = m.wrpos + k - 8 + 1 := by omega
    have hblocks1 : 1 ≤ o2.getOutputLength / 8 := by
      rw [hlenval]
      omega
    have hblocks2 : o2.getOutputLength / 8 ≤ 65535 := by
      rw [hlenval]
      omega
    have ho2ov : o2.toNetworkMessage.isOverrun = false :=
      isOverrun_false _ (by omega) (by omega)
    have hguard : ¬ (o2.toNetworkMessage.isOverrun = true ∨
        o2.getOutputLength / 8 = 0 ∨ o2.getOutputLength / 8 > 65535) := by
      rw [ho2ov]
      push_neg
      exact ⟨by simp, by omega, by omega⟩
    rw [if_neg hguard]
    have hstep : (if enc then
        (XteaEncrypt key o2.outputBytes).map o2.writeOutput else some o2)
        = some (if enc then o2.writeOutput (xteaEncryptBlocks key o2.outputBytes)
                else o2) := by
      cases enc with
      | false => simp
      | true =>
          have hxe : XteaEncrypt key o2.outputBytes
              = some (xteaEncryptBlocks key o2.outputBytes) := by
            rw [XteaEncrypt, if_neg]
            rw [outputBytes_length, hlenval]
            omega
          simp [hxe]
    rw [hstep, Option.some_bind]
    set o3 := if enc then o2.writeOutput (xteaEncryptBlocks key o2.outputBytes)
      else o2 with ho3
    have ho3st : o3.start = 7 := by
      rw [ho3]
      cases enc with
      | false => simpa using ho2st
      | true => simpa [OutputMessage.writeOutput] using ho2st
    have ho3f : o3.headerFault = false := by
      have h2f : o2.headerFault = false := by
        rw [h1h.2.1, hf, hfault]
      rw [ho3]
      cases enc with
      | false => simpa using h2f
      | true => simpa [OutputMessage.writeOutput] using h2f
    have h4h := addHeader_fields o3 4 seq (by omega)
    have h5h := addHeader_fields (o3.addHeader 4 seq) 2 (o2.getOutputLength / 8)
      (by rw [h4h.1, ho3st]; omega)
    refine ⟨(o3.addHeader 4 seq).addHeader 2 (o2.getOutputLength / 8),
      (seq + 1) % M32, rfl, ?_, ?_⟩
    · rw [h5h.2.1, h4h.2.1, ho3f]
    · rw [h5h.1, h4h.1, ho3st]
  · -- wrapPacket path
    have hbase : ∀ checksum, ∃ frame, wrapSeal key rand checksum m = some frame ∧
        frame.headerFault = false ∧ frame.start = 0 := by
      intro checksum
      obtain ⟨frame, hfr, hfs, hff, -⟩ :=
        wrapSeal_trace key rand checksum m hstart hrd hwr hcap
      exact ⟨frame, hfr, hff.trans hfault, hfs⟩
    cases mode with
    | adler =>
        obtain ⟨frame, hfr, hff, hfs⟩ := hbase (adler32 m.outputBytes)
        refine ⟨frame, ?_, hff, hfs⟩
        simp only [wrapPacket, hov, Bool.false_eq_true, if_false, if_true]
        exact hfr
    | disabled =>
        obtain ⟨frame, hfr, hff, hfs⟩ := hbase 0
        refine ⟨frame, ?_, hff, hfs⟩
        simp only [wrapPacket, hov, Bool.false_eq_true, if_false, if_true]
        exact hfr
    | sequence =>
        by_cases h128 : 128 ≤ m.getOutputLength
        · have hdf := deflateMessage_fields zlib m
          have hlen : m.getOutputLength = m.wrpos - 8 := by
            rw [getOutputLength_eq m (by omega) (by omega), hstart]
          have hw1 : 8 ≤ (deflateMessage zlib m).2.wrpos := by
            have h5 := hdf.2.2.2.2
            rw [hlen] at h5
            omega
          have hw2 : (deflateMessage zlib m).2.wrpos + 8 ≤
              NETWORKMESSAGE_MAXSIZE := by
            have h5 := hdf.2.2.2.1
            omega
          obtain ⟨frame, hfr, hfs, hff, -⟩ := wrapSeal_trace key rand
            (if (deflateMessage zlib m).1 then seqId ||| 2147483648 else seqId)
            (deflateMessage zlib m).2
            (hdf.1.trans hstart) (hdf.2.2.1.trans hrd) hw1 hw2
          refine ⟨frame, ?_, by rw [hff, hdf.2.1, hfault], hfs⟩
          simp only [wrapPacket, hov, Bool.false_eq_true, if_false, if_true,
            ge_iff_le, if_pos h128]
          exact hfr
        · obtain ⟨frame, hfr, hff, hfs⟩ := hbase seqId
          refine ⟨frame, ?_, hff, hfs⟩
          simp only [wrapPacket, hov, Bool.false_eq_true, if_false, if_true,
            ge_iff_le, if_neg h128]
          exact hfr

theorem claim_C8_output_start_invariant_witness :
    ((⟨⟨8, 10, fun _ => 0⟩, 8, false⟩ : OutputMessage).start = 8 ∧
     (⟨⟨8, 10, fun _ => 0⟩, 8, false⟩ : OutputMessage).rdpos = 8 ∧
     8 ≤ (⟨⟨8, 10, fun _ => 0⟩, 8, false⟩ : OutputMessage).wrpos ∧
     (⟨⟨8, 10, fun _ => 0⟩, 8, false⟩ : OutputMessage).wrpos + 8 ≤
       NETWORKMESSAGE_MAXSIZE ∧
     (⟨⟨8, 10, fun _ => 0⟩, 8, false⟩ : OutputMessage).headerFault = false) ∧
    ((⟨⟨8, 10, fun _ => 0⟩, 8, false⟩ : OutputMessage).reset.start = 8 ∧
     (∃ frame seq2, writeGamePacket 0 (fun _ => 0) ⟨0, 0, 0, 0⟩ true
         ⟨⟨8, 10, fun _ => 0⟩, 8, false⟩ = some (frame, seq2) ∧
       frame.headerFault = false ∧ frame.start = 1) ∧
     (∃ frame, wrapPacket ChecksumMode.sequence true false 0 (fun _ => none)
         (fun _ => 0) ⟨0, 0, 0, 0⟩ ⟨⟨8, 10, fun _ => 0⟩, 8, false⟩ = some frame ∧
       frame.headerFault = false ∧ frame.start = 0)) :=
  have h := claim_C8_output_start_invariant 0 0 (fun _ => 0) ⟨0, 0, 0, 0⟩ true
    ChecksumMode.sequence (fun _ => none) ⟨⟨8, 10, fun _ => 0⟩, 8, false⟩
    rfl rfl (by decide) (by decide) rfl
  ⟨⟨rfl, rfl, by decide, by decide, rfl⟩, h.1, h.2.2.1, h.2.2.2⟩

theorem writeGamePacket_uncompressed (seqW : Nat) (rand : Nat → Nat)
    (key : XteaKey) (mW : OutputMessage) (hstart : mW.start = 8)
    (hrd : mW.rdpos = 8) (hwr : 8 ≤ mW.wrpos)
    (hcap : mW.wrpos + 8 ≤ NETWORKMESSAGE_MAXSIZE)
    (hseqW : seqW < 2147483648) :
    ∃ frame seq2, writeGamePacket seqW rand key true mW = some (frame, seq2) ∧
      seq2 = (seqW + 1) % M32 ∧
      frameSequenceField frame = seqW ∧
      Nat.testBit (frameSequenceField frame) 31 = false ∧
      readLE frame.buffer frame.start 2 = (mW.getOutputLength + 8) / 8 := by
  have hM : NETWORKMESSAGE_MAXSIZE = 24576 := rfl
  have hmlen : mW.getOutputLength = mW.wrpos - 8 := by
    rw [getOutputLength_eq mW (by omega) (by omega), hstart]
  obtain ⟨m2, k, hloop, hs, hf, hr, hw, hk, hmod, hkv⟩ :=
    padLoop_ok rand 8 mW 0 (by omega) (by omega) (by omega)
      (by rw [hstart]; omega)
  rw [writeGamePacket, hloop, Option.some_bind]
  dsimp only
  have h1h := addHeader_fields m2 1 (0 + k) (by rw [hs, hstart]; omega)
  set o2 := m2.addHeader 1 (0 + k) with ho2
  have ho2wr : o2.wrpos = mW.wrpos + k := by rw [h1h.2.2.2.1, hw]
  have ho2rd : o2.rdpos = 8 := by rw [h1h.2.2.1, hr, hrd]
  have ho2st : o2.start = 7 := by rw [h1h.1, hs, hstart]
  have ho2len : o2.getOutputLength = mW.wrpos + k - 7 := by
    rw [getOutputLength_eq o2 (by omega) (by omega), ho2wr, ho2st]
  have hlen8 : (mW.wrpos + k - 8 + 1) % 8 = 0 := by
    rw [hstart] at hmod
    exact hmod
  have hlenval : o2.getOutputLength = mW.wrpos + k - 8 + 1 := by omega
  have hblocks1 : 1 ≤ o2.getOutputLength / 8 := by
    rw [hlenval]
    omega
  have hblocks2 : o2.getOutputLength / 8 ≤ 65535 := by
    rw [hlenval]
    omega
  have hblocksval : o2.getOutputLength / 8 = (mW.getOutputLength + 8) / 8 := by
    rw [hstart] at hkv
    rw [hlenval, hmlen]
    omega
  have ho2ov : o2.toNetworkMessage.isOverrun = false :=
    isOverrun_false _ (by omega) (by omega)
  have hguard : ¬ (o2.toNetworkMessage.isOverrun = true ∨
      o2.getOutputLength / 8 = 0 ∨ o2.getOutputLength / 8 > 65535) := by
    rw [ho2ov]
    push_neg
    exact ⟨by simp, by omega, by omega⟩
  rw [if_neg hguard]
  have hxe : XteaEncrypt key o2.outputBytes
      = some (xteaEncryptBlocks key o2.outputBytes) := by
    rw [XteaEncrypt, if_neg]
    rw [outputBytes_length, hlenval]
    omega
  rw [if_pos rfl, hxe, Option.map_some', Option.some_bind]
  set o3 := o2.writeOutput (xteaEncryptBlocks key o2.outputBytes) with ho3
  have ho3st : o3.start = 7 := by
    rw [ho3]
    simpa [OutputMessage.writeOutput] using ho2st
  have h4h := addHeader_fields o3 4 seqW (by omega)
  set m4 := o3.addHeader 4 seqW with hm4
  have h5h := addHeader_fields m4 2 (o2.getOutputLength / 8)
    (by rw [h4h.1, ho3st]; omega)
  refine ⟨m4.addHeader 2 (o2.getOutputLength / 8), (seqW + 1) % M32, rfl, rfl,
    ?_, ?_, ?_⟩
  · rw [frameSequenceField, h5h.1, h4h.1, ho3st, h5h.2.2.2.2, h4h.1, ho3st]
    show readLE (writeBytesAt m4.buffer 1 (natLE (o2.getOutputLength / 8) 2))
      3 4 = seqW
    have hcongr : readLE (writeBytesAt m4.buffer 1
        (natLE (o2.getOutputLength / 8) 2)) 3 4 = readLE m4.buffer 3 4 := by
      refine readLE_congr _ _ 4 3 (fun i hi => ?_)
      refine writeBytesAt_eq_of_ge _ _ _ _ ?_
      rw [natLE_length]
      omega
    rw [hcongr, h4h.2.2.2.2, ho3st]
    show readLE (writeBytesAt o3.buffer 3 (natLE seqW 4)) 3 4 = seqW
    rw [readLE_natLE]
    exact Nat.mod_eq_of_lt (by omega)
  · rw [frameSequenceField, h5h.1, h4h.1, ho3st, h5h.2.2.2.2, h4h.1, ho3st]
    show Nat.testBit (readLE (writeBytesAt m4.buffer 1
      (natLE (o2.getOutputLength / 8) 2)) 3 4) 31 = false
    have hcongr : readLE (writeBytesAt m4.buffer 1
        (natLE (o2.getOutputLength / 8) 2)) 3 4 = readLE m4.buffer 3 4 := by
      refine readLE_congr _ _ 4 3 (fun i hi => ?_)
      refine writeBytesAt_eq_of_ge _ _ _ _ ?_
      rw [natLE_length]
      omega
    rw [hcongr, h4h.2.2.2.2, ho3st]
    show Nat.testBit (readLE (writeBytesAt o3.buffer 3 (natLE seqW 4)) 3 4)
      31 = false
    rw [readLE_natLE, Nat.mod_eq_of_lt (by omega)]
    exact Nat.testBit_eq_false_of_lt (by omega)
  · rw [h5h.1, h4h.1, ho3st, h5h.2.2.2.2, h4h.1, ho3st]
    show readLE (writeBytesAt m4.buffer 1 (natLE (o2.getOutputLength / 8) 2))
      1 2 = (mW.getOutputLength + 8) / 8
    rw [readLE_natLE, ← hblocksval]
    exact Nat.mod_eq_of_lt (by omega)

/-- C5 counterexample: the live game-service send path `WriteGamePacket`
does not deflate.  For a 128-byte all-zero payload — which meets the
claimed deflate criterion, witnessed by a zlib oracle compressing it to 10
bytes, so `deflateMessage` would apply compression — the emitted frame has
the sequence high bit clear and a block count of 17, covering the full
uncompressed payload (`4 + 17·8` wire bytes), falsifying the claimed iff on
this sequence-numbered outbound frame. -/
theorem claim_C5_counterexample :
    128 ≤ (⟨⟨8, 136, fun _ => 0⟩, 8, false⟩ : OutputMessage).getOutputLength ∧
    (deflateMessage (fun _ => some (List.replicate 10 0))
        ⟨⟨8, 136, fun _ => 0⟩, 8, false⟩).1 = true ∧
    (writeGamePacket 0 (fun _ => 0) ⟨0, 0, 0, 0⟩ true
        ⟨⟨8, 136, fun _ => 0⟩, 8, false⟩).map
      (fun p => (Nat.testBit (frameSequenceField p.1) 31,
                 readLE p.1.buffer p.1.start 2))
      = some (false, 17) := by
  decide

/-- C5 (amended): deflate belongs to the `Protocol::wrapPacket` path only.
In sequence-checksum mode `wrapPacket` applies zlib deflate iff the
pre-compression payload is at least 128 bytes and the compressed size is
strictly smaller than the uncompressed size, and it sets the high bit of
the sequence field iff compression was applied; the game service's
`WriteGamePacket` send path, by contrast, never applies deflate and never
sets the high bit — every frame it emits carries the raw server sequence
(high bit clear) and a block count covering the full uncompressed
payload. -/
theorem claim_C5_deflate_paths (sequenceId seqW : Nat)
    (zlib : List Nat → Option (List Nat)) (rand : Nat → Nat) (key : XteaKey)
    (msg mW : OutputMessage)
    (hstart : msg.start = 8) (hrd : msg.rdpos = 8) (hwr : 8 ≤ msg.wrpos)
    (hcap : msg.wrpos + 8 ≤ NETWORKMESSAGE_MAXSIZE)
    (hseq : sequenceId < 2147483648)
    (hstartW : mW.start = 8) (hrdW : mW.rdpos = 8) (hwrW : 8 ≤ mW.wrpos)
    (hcapW : mW.wrpos + 8 ≤ NETWORKMESSAGE_MAXSIZE)
    (hseqW : seqW < 2147483648) :
    (∃ frame,
      wrapPacket ChecksumMode.sequence true false sequenceId zlib rand key msg
        = some frame ∧
      Nat.testBit (frameSequenceField frame) 31 = wrapDeflateApplied zlib msg ∧
      (wrapDeflateApplied zlib msg = true ↔
        128 ≤ msg.getOutputLength ∧
        ∃ compressed, zlib msg.outputBytes = some compressed ∧
          compressed.length < msg.getOutputLength)) ∧
    (∃ frame seq2, writeGamePacket seqW rand key true mW = some (frame, seq2) ∧
      frameSequenceField frame = seqW ∧
      Nat.testBit (frameSequenceField frame) 31 = false ∧
      readLE frame.buffer frame.start 2 = (mW.getOutputLength + 8) / 8) := by
  refine ⟨wrapPacket_deflate_highbit sequenceId zlib rand key msg hstart hrd hwr
    hcap hseq, ?_⟩
  obtain ⟨frame, seq2, h1, h2, h3, h4, h5⟩ :=
    writeGamePacket_uncompressed seqW rand key mW hstartW hrdW hwrW hcapW hseqW
  exact ⟨frame, seq2, h1, h3, h4, h5⟩

theorem claim_C5_deflate_paths_witness :
    ((⟨⟨8, 136, fun _ => 0⟩, 8, false⟩ : OutputMessage).start = 8 ∧
     (⟨⟨8, 136, fun _ => 0⟩, 8, false⟩ : OutputMessage).rdpos = 8 ∧
     8 ≤ (⟨⟨8, 136, fun _ => 0⟩, 8, false⟩ : OutputMessage).wrpos ∧
     (⟨⟨8, 136, fun _ => 0⟩, 8, false⟩ : OutputMessage).wrpos + 8 ≤
       NETWORKMESSAGE_MAXSIZE ∧
     (5 : Nat) < 2147483648 ∧ (0 : Nat) < 2147483648) ∧
    ((∃ frame,
      wrapPacket ChecksumMode.sequence true false 5
          (fun _ => some (List.replicate 64 0)) (fun _ => 0) ⟨0, 0, 0, 0⟩
          ⟨⟨8, 136, fun _ => 0⟩, 8, false⟩ = some frame ∧
      Nat.testBit (frameSequenceField frame) 31
        = wrapDeflateApplied (fun _ => some (List.replicate 64 0))
            ⟨⟨8, 136, fun _ => 0⟩, 8, false⟩ ∧
      (wrapDeflateApplied (fun _ => some (List.replicate 64 0))
          ⟨⟨8, 136, fun _ => 0⟩, 8, false⟩ = true ↔
        128 ≤ (⟨⟨8, 136, fun _ => 0⟩, 8, false⟩ : OutputMessage).getOutputLength ∧
        ∃ compressed,
          (fun _ => some (List.replicate 64 0))
            ((⟨⟨8, 136, fun _ => 0⟩, 8, false⟩ : OutputMessage).outputBytes)
            = some compressed ∧
          compressed.length <
            (⟨⟨8, 136, fun _ => 0⟩, 8, false⟩ : OutputMessage).getOutputLength)) ∧
    (∃ frame seq2,
      writeGamePacket 0 (fun _ => 0) ⟨0, 0, 0, 0⟩ true
          ⟨⟨8, 136, fun _ => 0⟩, 8, false⟩ = some (frame, seq2) ∧
      frameSequenceField frame = 0 ∧
      Nat.testBit (frameSequenceField frame) 31 = false ∧
      readLE frame.buffer frame.start 2 =
        ((⟨⟨8, 136, fun _ => 0⟩, 8, false⟩ :
          OutputMessage).getOutputLength + 8) / 8)) :=
  ⟨⟨rfl, rfl, by decide, by decide, by decide, by decide⟩,
    claim_C5_deflate_paths 5 0 (fun _ => some (List.replicate 64 0)) (fun _ => 0)
      ⟨0, 0, 0, 0⟩ ⟨⟨8, 136, fun _ => 0⟩, 8, false⟩
      ⟨⟨8, 136, fun _ => 0⟩, 8, false⟩ rfl rfl (by decide) (by decide) (by decide)
      rfl rfl (by decide) (by decide) (by decide)⟩
